import Mathlib

/-!
Verification development for the sec-edgar-toolkit TypeScript core.

Each component referenced by the specification claims is shallowly embedded:
pure functions become Lean functions, stateful classes become explicit state
passing, JavaScript numbers are modelled as `Int`/`Nat`/`ℚ` (the claims under
study are about control flow, never about float rounding), strings are Lean
strings over their character lists, and thrown exceptions become `Except`
values.  JavaScript truthiness is modelled explicitly where the source relies
on it (`x || d`, `if (value)`, `entry.expiry && ...`).
-/

set_option maxHeartbeats 1000000
set_option maxRecDepth 10000

namespace SecEdgarToolkit

/-! ## JavaScript-semantics helpers shared by the embeddings -/

/-- The JavaScript expression `x || d` for an optional number `x`
(`undefined` and `0` are falsy). -/
def jsOrInt (x : Option Int) (d : Int) : Int :=
  match x with
  | some v => if v = 0 then d else v
  | none => d

/-- The JavaScript expression `x || d` for an optional non-negative number. -/
def jsOrNat (x : Option Nat) (d : Nat) : Nat :=
  match x with
  | some v => if v = 0 then d else v
  | none => d

/-- JS `Map.prototype.get`: first binding (a JS `Map` holds unique keys). -/
def jsMapGet {β : Type} : List (String × β) → String → Option β
  | [], _ => none
  | (k', v) :: rest, k => if k' = k then some v else jsMapGet rest k

/-- JS `Map.prototype.has`. -/
def jsMapHas {β : Type} (m : List (String × β)) (k : String) : Bool :=
  (jsMapGet m k).isSome

/-- JS `Map.prototype.set`: update in place when present, append otherwise. -/
def jsMapSet {β : Type} : List (String × β) → String → β → List (String × β)
  | [], k, v => [(k, v)]
  | (k', v') :: rest, k, v =>
    if k' = k then (k, v) :: rest else (k', v') :: jsMapSet rest k v

/-- JS `Map.prototype.delete`: drop the (unique) binding for the key. -/
def jsMapDelete {β : Type} : List (String × β) → String → List (String × β)
  | [], _ => []
  | (k', v') :: rest, k =>
    if k' = k then rest else (k', v') :: jsMapDelete rest k

/-- `array.splice(array.indexOf(k), 1)`: remove the first occurrence. -/
def jsArrRemoveFirst : List String → String → List String
  | [], _ => []
  | k' :: rest, k => if k' = k then rest else k' :: jsArrRemoveFirst rest k

/-! ## `src/typescript/src/utils/cache.ts` — class `Cache`

`Date.now()` is passed explicitly as `now`; the entry map is an
insertion-ordered association list exactly as a JS `Map` iterates. -/

/-- `interface CacheEntry<T>` (`expiry?: number`). -/
structure CacheEntry (α : Type) where
  data : α
  timestamp : Int
  expiry : Option Int
deriving DecidableEq

/-- `interface CacheOptions` (the `persistent` flag is never read by the
methods under study). -/
structure CacheOptions where
  ttl : Option Int := none
  maxSize : Option Nat := none
deriving DecidableEq

/-- `class Cache<T>`: entry map, LRU access order and hit/miss counters,
plus the resolved constructor options. -/
structure Cache (α : Type) where
  map : List (String × CacheEntry α)
  accessOrder : List String
  hits : Nat
  misses : Nat
  ttl : Int
  maxSize : Nat
deriving DecidableEq

/-- The constructor: `ttl: options.ttl || 3600000, maxSize: options.maxSize || 1000`. -/
def Cache.new {α : Type} (opts : CacheOptions) : Cache α :=
  { map := [], accessOrder := [], hits := 0, misses := 0,
    ttl := jsOrInt opts.ttl 3600000, maxSize := jsOrNat opts.maxSize 1000 }

/-- `removeFromAccessOrder`. -/
def Cache.removeFromAccessOrder {α : Type} (c : Cache α) (key : String) : Cache α :=
  { c with accessOrder := jsArrRemoveFirst c.accessOrder key }

/-- `updateAccessOrder`: remove then push to the most-recent end. -/
def Cache.updateAccessOrder {α : Type} (c : Cache α) (key : String) : Cache α :=
  { c with accessOrder := jsArrRemoveFirst c.accessOrder key ++ [key] }

/-- `delete(key)` (the returned boolean is dropped). -/
def Cache.deleteKey {α : Type} (c : Cache α) (key : String) : Cache α :=
  { c with accessOrder := jsArrRemoveFirst c.accessOrder key,
           map := jsMapDelete c.map key }

/-- `evictLRU`: delete the head of the access order, if any. -/
def Cache.evictLRU {α : Type} (c : Cache α) : Cache α :=
  match c.accessOrder with
  | [] => c
  | lruKey :: _ => c.deleteKey lruKey

/-- `entry.expiry && Date.now() > entry.expiry` (a stored `0` would be falsy). -/
def CacheEntry.isExpired {α : Type} (now : Int) (e : CacheEntry α) : Bool :=
  match e.expiry with
  | some ex => decide (ex ≠ 0 ∧ ex < now)
  | none => false

/-- `get(key)`: miss on absence, lazy-expire on access, otherwise promote
in LRU order and count a hit. -/
def Cache.get {α : Type} (now : Int) (key : String) (c : Cache α) :
    Option α × Cache α :=
  match jsMapGet c.map key with
  | none => (none, { c with misses := c.misses + 1 })
  | some entry =>
    if entry.isExpired now then
      (none, { c with map := jsMapDelete c.map key,
                      accessOrder := jsArrRemoveFirst c.accessOrder key,
                      misses := c.misses + 1 })
    else
      let c1 := c.updateAccessOrder key
      (some entry.data, { c1 with hits := c1.hits + 1 })

/-- `set(key, data, ttl?)`: `expiry = ttl || this.options.ttl`; evict the LRU
entry when at capacity and the key is new; store
`expiry > 0 ? Date.now() + expiry : undefined`. -/
def Cache.set {α : Type} (now : Int) (key : String) (data : α) (ttl : Option Int)
    (c : Cache α) : Cache α :=
  let expiryDur := jsOrInt ttl c.ttl
  let c1 := if c.maxSize ≤ c.map.length ∧ jsMapHas c.map key = false then
      c.evictLRU
    else c
  let entry : CacheEntry α :=
    { data := data, timestamp := now,
      expiry := if 0 < expiryDur then some (now + expiryDur) else none }
  let c2 := { c1 with map := jsMapSet c1.map key entry }
  c2.updateAccessOrder key

/-- `get size()`. -/
def Cache.size {α : Type} (c : Cache α) : Nat := c.map.length

/-- Observer for statements: key present in the entry map. -/
def Cache.hasKey {α : Type} (c : Cache α) (key : String) : Bool :=
  jsMapHas c.map key

/-- Inserting a list of keys in order, each with the same value and no
explicit ttl (`cache.set(k, v)` repeatedly). -/
def Cache.fillAll {α : Type} (now : Int) (v : α) (keys : List String)
    (c : Cache α) : Cache α :=
  keys.foldl (fun c k => Cache.set now k v none c) c

/-! ### Lemmas about the cache embedding -/

/-- The entry that `set now key v none` stores on a cache whose default ttl
is `ttl`. -/
def mkEntry {α : Type} (ttl now : Int) (v : α) : CacheEntry α :=
  { data := v, timestamp := now,
    expiry := if 0 < ttl then some (now + ttl) else none }

/-- A cache in "table" normal form: every key bound to the same entry, LRU
order equal to map order. -/
def tableCache {α : Type} (ttl : Int) (ms : Nat) (e : CacheEntry α)
    (keys : List String) (h m : Nat) : Cache α :=
  { map := keys.map (fun k => (k, e)), accessOrder := keys, hits := h,
    misses := m, ttl := ttl, maxSize := ms }

theorem jsMapGet_table {α : Type} (e : CacheEntry α) (l : List String) (k : String) :
    jsMapGet (l.map (fun k' => (k', e))) k = if k ∈ l then some e else none := by
  induction l with
  | nil => simp [jsMapGet]
  | cons a t ih =>
    by_cases h : a = k
    · subst h; simp [jsMapGet]
    · simp [jsMapGet, h, ih, List.mem_cons, Ne.symm h]

theorem jsMapGet_table_snoc {α : Type} (e : CacheEntry α) (l : List String)
    (kn k : String) :
    jsMapGet (l.map (fun k' => (k', e)) ++ [(kn, e)]) k
      = if k ∈ l ∨ k = kn then some e else none := by
  induction l with
  | nil =>
    by_cases h : kn = k
    · subst h; simp [jsMapGet]
    · have h' : ¬ k = kn := fun hh => h hh.symm
      simp [jsMapGet, h, h']
  | cons a t ih =>
    by_cases h : a = k
    · subst h; simp [jsMapGet]
    · have h2 : ¬ k = a := fun hh => h hh.symm
      simp only [List.map_cons, List.cons_append, jsMapGet, if_neg h,
        List.mem_cons, List.append_eq]
      rw [ih]
      simp [h2, or_assoc]

theorem jsMapSet_fresh {β : Type} (m : List (String × β)) (k : String) (v : β)
    (h : jsMapGet m k = none) : jsMapSet m k v = m ++ [(k, v)] := by
  induction m with
  | nil => simp [jsMapSet]
  | cons p t ih =>
    obtain ⟨k', v'⟩ := p
    by_cases hk : k' = k
    · simp [jsMapGet, hk] at h
    · simp [jsMapGet, hk] at h
      simp [jsMapSet, hk, ih h]

theorem jsMapGet_delete_none {β : Type} (m : List (String × β)) (k k' : String)
    (h : jsMapGet m k = none) : jsMapGet (jsMapDelete m k') k = none := by
  induction m with
  | nil => simp [jsMapDelete, jsMapGet]
  | cons p t ih =>
    obtain ⟨ka, va⟩ := p
    by_cases hka : ka = k
    · simp [jsMapGet, hka] at h
    · simp [jsMapGet, hka] at h
      by_cases hkb : ka = k'
      · simpa [jsMapDelete, hkb] using h
      · simp [jsMapDelete, hkb, jsMapGet, hka, ih h]

theorem jsMapDelete_table {α : Type} (e : CacheEntry α) (l : List String) (k : String) :
    jsMapDelete (l.map (fun k' => (k', e))) k
      = (jsArrRemoveFirst l k).map (fun k' => (k', e)) := by
  induction l with
  | nil => simp [jsMapDelete, jsArrRemoveFirst]
  | cons a t ih =>
    by_cases h : a = k
    · simp [jsMapDelete, jsArrRemoveFirst, h]
    · simp [jsMapDelete, jsArrRemoveFirst, h, ih]

theorem jsArrRemoveFirst_not_mem (l : List String) (k : String) (h : k ∉ l) :
    jsArrRemoveFirst l k = l := by
  induction l with
  | nil => simp [jsArrRemoveFirst]
  | cons a t ih =>
    simp only [List.mem_cons, not_or] at h
    simp [jsArrRemoveFirst, Ne.symm h.1, ih h.2]

theorem mkEntry_not_expired {α : Type} (ttl now : Int) (v : α) :
    CacheEntry.isExpired now (mkEntry ttl now v) = false := by
  unfold mkEntry CacheEntry.isExpired
  by_cases h : 0 < ttl
  · simp only [h, if_true]
    simp only [decide_eq_false_iff_not, not_and]
    intro _
    omega
  · simp [h]

/-- `set` with a fresh key on a table cache with room: append. -/
theorem Cache.set_table_fresh {α : Type} (now : Int) (v : α) (ttl : Int) (ms : Nat)
    (l : List String) (h m : Nat) (key : String)
    (hnotin : key ∉ l) (hroom : l.length < ms) :
    Cache.set now key v none (tableCache ttl ms (mkEntry ttl now v) l h m)
      = tableCache ttl ms (mkEntry ttl now v) (l ++ [key]) h m := by
  unfold Cache.set tableCache
  have hget : jsMapGet (l.map (fun k' => (k', mkEntry (α := α) ttl now v))) key = none := by
    simp [jsMapGet_table, hnotin]
  have hcond : ¬ (ms ≤ (l.map (fun k' => (k', mkEntry (α := α) ttl now v))).length ∧
      jsMapHas (l.map (fun k' => (k', mkEntry (α := α) ttl now v))) key = false) := by
    intro hc
    have := hc.1
    simp only [List.length_map] at this
    omega
  simp only [hcond, if_neg, if_false, not_false_eq_true]
  unfold Cache.updateAccessOrder
  simp only [jsMapSet_fresh _ _ _ hget, jsArrRemoveFirst_not_mem l key hnotin]
  simp [jsOrInt, mkEntry, List.map_append]

/-- Filling a table cache with fresh keys within capacity keeps it a table. -/
theorem Cache.fillAll_table {α : Type} (now : Int) (v : α) (ttl : Int) (ms : Nat) :
    ∀ (ks l : List String) (h m : Nat), (l ++ ks).Nodup →
      l.length + ks.length ≤ ms →
      Cache.fillAll now v ks (tableCache ttl ms (mkEntry ttl now v) l h m)
        = tableCache ttl ms (mkEntry ttl now v) (l ++ ks) h m := by
  intro ks
  induction ks with
  | nil => intro l h m _ _; simp [Cache.fillAll]
  | cons k kt ih =>
    intro l h m hnd hlen
    have hknotin : k ∉ l := by
      have := List.disjoint_of_nodup_append hnd
      intro hmem
      exact this hmem (List.mem_cons_self k kt)
    have hroom : l.length < ms := by
      simp only [List.length_cons] at hlen
      omega
    have hstep := Cache.set_table_fresh now v ttl ms l h m k hknotin hroom
    have hnd' : (l ++ [k] ++ kt).Nodup := by
      simpa [List.append_assoc] using hnd
    have hlen' : (l ++ [k]).length + kt.length ≤ ms := by
      simp only [List.length_append, List.length_cons, List.length_nil] at *
      omega
    calc Cache.fillAll now v (k :: kt) (tableCache ttl ms (mkEntry ttl now v) l h m)
      = Cache.fillAll now v kt
          (Cache.set now k v none (tableCache ttl ms (mkEntry ttl now v) l h m)) := rfl
    _ = Cache.fillAll now v kt (tableCache ttl ms (mkEntry ttl now v) (l ++ [k]) h m) := by
        rw [hstep]
    _ = tableCache ttl ms (mkEntry ttl now v) (l ++ [k] ++ kt) h m := ih (l ++ [k]) h m hnd' hlen'
    _ = tableCache ttl ms (mkEntry ttl now v) (l ++ k :: kt) h m := by
        simp [List.append_assoc]

theorem jsMapGet_set_self {β : Type} (m : List (String × β)) (k : String) (v : β) :
    jsMapGet (jsMapSet m k v) k = some v := by
  induction m with
  | nil => simp [jsMapSet, jsMapGet]
  | cons p t ih =>
    obtain ⟨k', v'⟩ := p
    by_cases h : k' = k
    · simp [jsMapSet, jsMapGet, h]
    · simp [jsMapSet, jsMapGet, h, ih]

/-- `set` with a fresh key on a full cache: the head of the access order is
evicted, then the new binding is appended. -/
theorem Cache.set_full_evict {α : Type} (now : Int) (v : α) (key : String)
    (cm : List (String × CacheEntry α)) (v0 : String) (vrest : List String)
    (ch cms : Nat) (cttl : Int) (cmax : Nat)
    (hlen : cmax ≤ cm.length) (hfresh : jsMapGet cm key = none) :
    Cache.set now key v none
        ⟨cm, v0 :: vrest, ch, cms, cttl, cmax⟩
      = ⟨jsMapSet (jsMapDelete cm v0) key (mkEntry cttl now v),
         jsArrRemoveFirst vrest key ++ [key], ch, cms, cttl, cmax⟩ := by
  have hcond : cmax ≤ cm.length ∧ jsMapHas cm key = false := by
    constructor
    · exact hlen
    · simp [jsMapHas, hfresh]
  unfold Cache.set
  simp only [Cache.evictLRU, Cache.deleteKey, Cache.updateAccessOrder,
    hcond, if_pos, jsOrInt, mkEntry, jsArrRemoveFirst]
  simp

/-- `get` of the first-inserted key of a table cache at the insertion time:
a hit that moves the key to the most-recent end. -/
theorem Cache.get_table_head {α : Type} (now : Int) (v : α) (ttl : Int) (ms : Nat)
    (k0 : String) (lrest : List String) (h m : Nat) :
    Cache.get now k0 (tableCache ttl ms (mkEntry ttl now v) (k0 :: lrest) h m)
      = (some v,
         { map := (k0 :: lrest).map (fun k' => (k', mkEntry ttl now v)),
           accessOrder := lrest ++ [k0], hits := h + 1, misses := m,
           ttl := ttl, maxSize := ms }) := by
  unfold Cache.get
  have hget : jsMapGet (tableCache ttl ms (mkEntry (α := α) ttl now v)
      (k0 :: lrest) h m).map k0 = some (mkEntry ttl now v) := by
    simp [tableCache, jsMapGet]
  rw [hget]
  simp only [mkEntry_not_expired, Bool.false_eq_true, if_false]
  unfold tableCache Cache.updateAccessOrder
  simp [jsArrRemoveFirst, mkEntry]

/-- Worker for the LRU claim, stated with local abbreviations. -/
theorem cache_lru_spec {α : Type} (v : α) (t : Int)
    (k0 m0 kn : String) (mrest : List String)
    (hnd : (k0 :: m0 :: mrest ++ [kn]).Nodup) :
    let K := mrest.length + 2
    let c0 : Cache α := Cache.new { maxSize := some K }
    let c1 := Cache.fillAll t v (k0 :: m0 :: mrest ++ [kn]) c0
    (c1.size = K ∧ c1.hasKey k0 = false ∧
      ∀ k ∈ m0 :: mrest ++ [kn], c1.hasKey k = true) ∧
    (let cfull := Cache.fillAll t v (k0 :: m0 :: mrest) c0
     (Cache.get t k0 cfull).1 = some v ∧
     (let c2 := Cache.set t kn v none (Cache.get t k0 cfull).2
      c2.hasKey k0 = true ∧ c2.hasKey m0 = false ∧ c2.size = K)) := by
  intro K c0 c1
  -- facts from distinctness
  have hnd' : ((k0 :: m0 :: mrest) ++ [kn]).Nodup := by simpa using hnd
  have hl1nd : (k0 :: m0 :: mrest).Nodup := (List.nodup_append.mp hnd').1
  have hkn : kn ∉ k0 :: m0 :: mrest := by
    intro hmem
    exact (List.disjoint_of_nodup_append hnd') hmem (List.mem_singleton.mpr rfl)
  have hk0 : k0 ∉ m0 :: mrest := by
    have := List.nodup_cons.mp hl1nd
    exact this.1
  have hm0 : m0 ∉ mrest := by
    have := List.nodup_cons.mp ((List.nodup_cons.mp hl1nd).2)
    exact this.1
  have hk0m0 : k0 ≠ m0 := by
    intro h
    exact hk0 (h ▸ List.mem_cons_self m0 mrest)
  have hk0kn : k0 ≠ kn := by
    intro h
    exact hkn (h ▸ List.mem_cons_self k0 (m0 :: mrest))
  have hm0kn : m0 ≠ kn := by
    intro h
    exact hkn (h ▸ List.mem_cons_of_mem k0 (List.mem_cons_self m0 mrest))
  have hknm : kn ∉ m0 :: mrest := fun h => hkn (List.mem_cons_of_mem k0 h)
  have hknmr : kn ∉ mrest := fun h => hknm (List.mem_cons_of_mem m0 h)
  have hk0mr : k0 ∉ mrest := fun h => hk0 (List.mem_cons_of_mem m0 h)
  have hgetkn : jsMapGet ((k0, mkEntry (α := α) 3600000 t v)
      :: (m0, mkEntry 3600000 t v)
      :: mrest.map (fun k' => (k', mkEntry 3600000 t v))) kn = none := by
    simp [jsMapGet, hk0kn, hm0kn, jsMapGet_table, hknmr]
  -- the empty cache is a table
  have hc0 : c0 = tableCache 3600000 K (mkEntry 3600000 t v) [] 0 0 := by
    show Cache.new { maxSize := some K } = _
    unfold Cache.new tableCache jsOrInt jsOrNat
    simp [K]
  -- filling the first K keys gives the full table
  have hfill : Cache.fillAll t v (k0 :: m0 :: mrest) c0
      = tableCache 3600000 K (mkEntry 3600000 t v) (k0 :: m0 :: mrest) 0 0 := by
    rw [hc0]
    have := Cache.fillAll_table t v 3600000 K (k0 :: m0 :: mrest) [] 0 0
      (by simpa using hl1nd) (by simp [K])
    simpa using this
  constructor
  · -- part 1: inserting the (K+1)-st key evicts exactly k0
    have hsplit : c1 = Cache.set t kn v none
        (Cache.fillAll t v (k0 :: m0 :: mrest) c0) := by
      show Cache.fillAll t v ((k0 :: m0 :: mrest) ++ [kn]) c0 = _
      unfold Cache.fillAll
      rw [List.foldl_append]
      rfl
    have hset := Cache.set_full_evict t v kn
      ((k0 :: m0 :: mrest).map (fun k' => (k', mkEntry 3600000 t v)))
      k0 (m0 :: mrest) 0 0 3600000 K
      (by simp [K]) (by simpa using hgetkn)
    have hc1 : c1 = tableCache 3600000 K (mkEntry 3600000 t v)
        ((m0 :: mrest) ++ [kn]) 0 0 := by
      rw [hsplit, hfill]
      show Cache.set t kn v none
          ⟨(k0 :: m0 :: mrest).map (fun k' => (k', mkEntry 3600000 t v)),
            k0 :: m0 :: mrest, 0, 0, 3600000, K⟩ = _
      rw [hset]
      unfold tableCache
      simp only [List.map_cons, jsMapDelete, if_pos rfl]
      rw [jsArrRemoveFirst_not_mem _ _ hknm,
          jsMapSet_fresh _ _ _ (by simp [jsMapGet, hm0kn, jsMapGet_table, hknmr])]
      simp
    rw [hc1]
    refine ⟨by simp [tableCache, Cache.size], ?_, ?_⟩
    · have hsym : m0 ≠ k0 := fun h => hk0m0 h.symm
      simp [Cache.hasKey, tableCache, jsMapHas, jsMapGet, hsym, jsMapGet_table_snoc,
        hk0mr, hk0kn]
    · intro k hk
      have hk' : k ∈ m0 :: (mrest ++ [kn]) := by simpa using hk
      rcases List.mem_cons.mp hk' with h | h
      · subst h
        simp [Cache.hasKey, tableCache, jsMapHas, jsMapGet]
      · by_cases hm : m0 = k
        · subst hm
          simp [Cache.hasKey, tableCache, jsMapHas, jsMapGet]
        · rcases List.mem_append.mp h with h' | h'
          · simp [Cache.hasKey, tableCache, jsMapHas, jsMapGet, hm,
              jsMapGet_table_snoc, h']
          · have hkkn : k = kn := by simpa using h'
            simp [Cache.hasKey, tableCache, jsMapHas, jsMapGet, hm,
              jsMapGet_table_snoc, hkkn]
  · -- part 2: get k0 promotes it; the next eviction removes m0 instead
    intro cfull
    have hget := Cache.get_table_head t v 3600000 K k0 (m0 :: mrest) 0 0
    constructor
    · show (Cache.get t k0 cfull).1 = some v
      show (Cache.get t k0 (Cache.fillAll t v (k0 :: m0 :: mrest) c0)).1 = some v
      rw [hfill, hget]
    · intro c2
      have hc2 : c2 = Cache.set t kn v none
          ⟨(k0 :: m0 :: mrest).map (fun k' => (k', mkEntry 3600000 t v)),
            (m0 :: mrest) ++ [k0], 0 + 1, 0, 3600000, K⟩ := by
        show Cache.set t kn v none (Cache.get t k0 cfull).2 = _
        show Cache.set t kn v none
            (Cache.get t k0 (Cache.fillAll t v (k0 :: m0 :: mrest) c0)).2 = _
        rw [hfill, hget]
      have hset2 := Cache.set_full_evict t v kn
        ((k0 :: m0 :: mrest).map (fun k' => (k', mkEntry 3600000 t v)))
        m0 (mrest ++ [k0]) (0 + 1) 0 3600000 K
        (by simp [K]) (by simp [jsMapGet, hk0kn, hm0kn, jsMapGet_table, hknmr])
      have hdel : jsMapDelete
          ((k0 :: m0 :: mrest).map (fun k' => (k', mkEntry (α := α) 3600000 t v))) m0
          = (k0 :: mrest).map (fun k' => (k', mkEntry 3600000 t v)) := by
        rw [jsMapDelete_table]
        simp [jsArrRemoveFirst, hk0m0]
      have hfinalmap : jsMapSet
          ((k0 :: mrest).map (fun k' => (k', mkEntry (α := α) 3600000 t v))) kn
          (mkEntry 3600000 t v)
          = ((k0 :: mrest) ++ [kn]).map (fun k' => (k', mkEntry 3600000 t v)) := by
        rw [jsMapSet_fresh]
        · simp
        · simp [jsMapGet, hk0kn, jsMapGet_table, hknmr]
      have hc2' : c2.map = ((k0 :: mrest) ++ [kn]).map
          (fun k' => (k', mkEntry 3600000 t v)) := by
        rw [hc2]
        rw [show ((m0 :: mrest) ++ [k0] : List String) = m0 :: (mrest ++ [k0]) by simp]
        rw [hset2]
        simp only [hdel, hfinalmap]
      refine ⟨?_, ?_, ?_⟩
      · unfold Cache.hasKey jsMapHas
        rw [hc2']
        simp [jsMapGet]
      · unfold Cache.hasKey jsMapHas
        rw [hc2']
        simp [jsMapGet, hk0m0, jsMapGet_table_snoc, hm0, hm0kn]
      · unfold Cache.size
        rw [hc2']
        simp [K]

/-- C3: For a Cache constructed with maximum size K, inserting K+1 distinct
keys with no intervening accesses evicts exactly the first-inserted key,
keeping the size at most K; and a get of a live key promotes it in LRU order
so that the next capacity-triggered eviction removes a less-recently-used key
instead of it.  (Stated for K = mrest.length + 2 ≥ 2 so that a
less-recently-used key exists; the K+1 distinct keys are
k0, m0, mrest…, kn.) -/
theorem cache_lru_eviction_and_promotion {α : Type} (v : α) (t : Int)
    (k0 m0 kn : String) (mrest : List String)
    (hnd : (k0 :: m0 :: mrest ++ [kn]).Nodup) :
    ((Cache.fillAll t v (k0 :: m0 :: mrest ++ [kn])
        (Cache.new { maxSize := some (mrest.length + 2) })).size
        = mrest.length + 2 ∧
      (Cache.fillAll t v (k0 :: m0 :: mrest ++ [kn])
        (Cache.new { maxSize := some (mrest.length + 2) })).hasKey k0 = false ∧
      ∀ k ∈ m0 :: mrest ++ [kn],
        (Cache.fillAll t v (k0 :: m0 :: mrest ++ [kn])
          (Cache.new { maxSize := some (mrest.length + 2) })).hasKey k = true) ∧
    ((Cache.get t k0 (Cache.fillAll t v (k0 :: m0 :: mrest)
        (Cache.new { maxSize := some (mrest.length + 2) }))).1 = some v ∧
      ((Cache.set t kn v none (Cache.get t k0 (Cache.fillAll t v (k0 :: m0 :: mrest)
          (Cache.new { maxSize := some (mrest.length + 2) }))).2).hasKey k0
          = true ∧
       (Cache.set t kn v none (Cache.get t k0 (Cache.fillAll t v (k0 :: m0 :: mrest)
          (Cache.new { maxSize := some (mrest.length + 2) }))).2).hasKey m0
          = false ∧
       (Cache.set t kn v none (Cache.get t k0 (Cache.fillAll t v (k0 :: m0 :: mrest)
          (Cache.new { maxSize := some (mrest.length + 2) }))).2).size
          = mrest.length + 2)) :=
  cache_lru_spec v t k0 m0 kn mrest hnd

/-- Witness for C3 at K = 2, keys "a", "b", "c". -/
theorem cache_lru_eviction_and_promotion_witness :
    (Cache.fillAll 0 (7 : Nat) ["a", "b", "c"]
        (Cache.new { maxSize := some 2 })).hasKey "a" = false ∧
    (Cache.fillAll 0 (7 : Nat) ["a", "b", "c"]
        (Cache.new { maxSize := some 2 })).hasKey "b" = true := by
  have h := cache_lru_eviction_and_promotion (7 : Nat) 0 "a" "b" "c" [] (by decide)
  exact ⟨h.1.2.1, h.1.2.2 "b" (by simp)⟩

/-- C4 counterexample: on a default-configured cache, `set` with ttl 0 does
NOT store a never-expiring entry — `ttl || this.options.ttl` makes a supplied
0 fall back to the one-hour default, after which the entry expires. -/
theorem cache_ttl_zero_expires_counterexample :
    (Cache.get 3600000 "k" (Cache.set 0 "k" (7 : Nat) (some 0)
        (Cache.new {}))).1 = some 7 ∧
    (Cache.get 3600001 "k" (Cache.set 0 "k" (7 : Nat) (some 0)
        (Cache.new {}))).1 = none := by
  decide

/-- The entry map right after a `set`: the binding for the key is updated in
the (possibly evicted) map; `updateAccessOrder` leaves the map untouched. -/
theorem Cache.set_map {α : Type} (now : Int) (key : String) (v : α)
    (ttl' : Option Int) (c : Cache α) :
    (Cache.set now key v ttl' c).map
      = jsMapSet (if c.maxSize ≤ c.map.length ∧ jsMapHas c.map key = false then
            c.evictLRU else c).map key
          { data := v, timestamp := now,
            expiry := if 0 < jsOrInt ttl' c.ttl then
                some (now + jsOrInt ttl' c.ttl) else none } := rfl

/-- The value a `get` returns right after a `set` of the same key: the stored
data unless the freshly stored entry is already expired. -/
theorem Cache.get_fst_after_set {α : Type} (now tw : Int) (key : String) (v : α)
    (ttl' : Option Int) (c : Cache α) :
    (Cache.get now key (Cache.set tw key v ttl' c)).1
      = if CacheEntry.isExpired now
            { data := v, timestamp := tw,
              expiry := if 0 < jsOrInt ttl' c.ttl then
                  some (tw + jsOrInt ttl' c.ttl) else none } then none
        else some v := by
  unfold Cache.get
  rw [Cache.set_map, jsMapGet_set_self]
  by_cases h : CacheEntry.isExpired now
      { data := v, timestamp := tw,
        expiry := if 0 < jsOrInt ttl' c.ttl then
            some (tw + jsOrInt ttl' c.ttl) else none } = true
  · simp [h]
  · simp [h]

/-- C4 (amended): `set` stores a never-expiring entry when the supplied ttl
is negative (a supplied ttl of 0 is falsy in `ttl || this.options.ttl` and
falls back to the configured default instead); with a positive ttl T the
stored value is returned up to T after the set and a miss results strictly
after T has elapsed; re-setting the same key resets its TTL clock. -/
theorem cache_ttl_semantics {α : Type} (c : Cache α) (key : String) (v : α)
    (t T t' : Int) (ht : 0 ≤ t) :
    (T < 0 → (Cache.get t' key (Cache.set t key v (some T) c)).1 = some v) ∧
    (0 < T →
      (t' ≤ t + T → (Cache.get t' key (Cache.set t key v (some T) c)).1 = some v) ∧
      (t + T < t' → (Cache.get t' key (Cache.set t key v (some T) c)).1 = none)) ∧
    (0 < T → ∀ t2 : Int, 0 ≤ t2 →
      (t' ≤ t2 + T →
        (Cache.get t' key (Cache.set t2 key v (some T)
          (Cache.set t key v (some T) c))).1 = some v) ∧
      (t2 + T < t' →
        (Cache.get t' key (Cache.set t2 key v (some T)
          (Cache.set t key v (some T) c))).1 = none)) := by
  have hgetset : ∀ (c' : Cache α) (tw : Int), 0 ≤ tw → T ≠ 0 →
      (Cache.get t' key (Cache.set tw key v (some T) c')).1
        = if 0 < T ∧ tw + T < t' then none else some v := by
    intro c' tw htw hT0
    rw [Cache.get_fst_after_set]
    have hdur : jsOrInt (some T) c'.ttl = T := by simp [jsOrInt, hT0]
    rw [hdur]
    by_cases hT : 0 < T
    · simp only [hT, if_pos, true_and]
      unfold CacheEntry.isExpired
      by_cases hexp : tw + T < t'
      · have h1 : (tw + T ≠ 0 ∧ tw + T < t') := ⟨by omega, hexp⟩
        simp [hexp, h1]
      · have h1 : ¬(tw + T ≠ 0 ∧ tw + T < t') := fun h => hexp h.2
        simp [hexp, h1]
    · have hTneg : ¬ (0 < T ∧ tw + T < t') := fun h => hT h.1
      simp only [hT, if_false, hTneg]
      unfold CacheEntry.isExpired
      simp [hT]
  refine ⟨?_, ?_, ?_⟩
  · intro hT
    rw [hgetset c t ht (by omega)]
    have h1 : ¬ (0 < T ∧ t + T < t') := fun h => by omega
    simp [h1]
  · intro hT
    refine ⟨fun hle => ?_, fun hgt => ?_⟩
    · rw [hgetset c t ht (by omega)]
      have h1 : ¬ (0 < T ∧ t + T < t') := fun h => by omega
      simp [h1]
    · rw [hgetset c t ht (by omega)]
      have h1 : 0 < T ∧ t + T < t' := ⟨hT, hgt⟩
      simp [h1]
  · intro hT t2 ht2
    refine ⟨fun hle => ?_, fun hgt => ?_⟩
    · rw [hgetset _ t2 ht2 (by omega)]
      have h1 : ¬ (0 < T ∧ t2 + T < t') := fun h => by omega
      simp [h1]
    · rw [hgetset _ t2 ht2 (by omega)]
      have h1 : 0 < T ∧ t2 + T < t' := ⟨hT, hgt⟩
      simp [h1]

/-- Witness for C4 at T = 5: hit at time 3, and after a re-set at time 10
the value is live at time 12 (old clock would have expired) and dead at 16. -/
theorem cache_ttl_semantics_witness :
    (Cache.get 3 "k" (Cache.set 0 "k" (7 : Nat) (some 5) (Cache.new {}))).1
        = some 7 ∧
    (Cache.get 12 "k" (Cache.set 10 "k" (7 : Nat) (some 5)
        (Cache.set 0 "k" (7 : Nat) (some 5) (Cache.new {})))).1 = some 7 ∧
    (Cache.get 16 "k" (Cache.set 10 "k" (7 : Nat) (some 5)
        (Cache.set 0 "k" (7 : Nat) (some 5) (Cache.new {})))).1 = none := by
  have h := cache_ttl_semantics (Cache.new {}) "k" (7 : Nat) 0 5 3 (by norm_num)
  have h12 := cache_ttl_semantics (Cache.new {}) "k" (7 : Nat) 0 5 12 (by norm_num)
  have h16 := cache_ttl_semantics (Cache.new {}) "k" (7 : Nat) 0 5 16 (by norm_num)
  refine ⟨(h.2.1 (by norm_num)).1 (by norm_num), ?_, ?_⟩
  · exact ((h12.2.2 (by norm_num)) 10 (by norm_num)).1 (by norm_num)
  · exact ((h16.2.2 (by norm_num)) 10 (by norm_num)).2 (by norm_num)

/-! ## `src/typescript/src/utils/http-client.ts` — `HttpClient.get`

The retry loop is embedded over a trace `outcomes : Nat → AttemptOutcome`
giving what attempt `i` would observe from the network.  `sleep` durations are
collected instead of waited for.  (The cache consult and rate-limit wait that
precede the loop are orthogonal to the retry claims and not modelled.)

Error classes come from `src/typescript/src/exceptions` (`base.ts`,
`errors.ts`): `AuthenticationError`/`NotFoundError`/`RateLimitError` carry
status codes 401/404/429, `RequestError` carries the response status, and
`TimeoutError`/`NetworkError` carry no status code. -/

/-- What one iteration of the loop observes: success, an abort (timeout), an
error whose message carries a network marker (ENOTFOUND/ECONNREFUSED/
ETIMEDOUT/NetworkError), a non-2xx HTTP status, or a generic failure such as
an unparseable body. -/
inductive AttemptOutcome where
  | ok
  | abortError
  | networkMessage
  | httpStatus (status : Nat)
  | jsonError
deriving DecidableEq

/-- The typed error stored in `lastError` after the catch-block
classification. -/
inductive ClassifiedError where
  | timeoutError
  | networkError
  | authenticationError
  | notFoundError
  | rateLimitError
  | requestError (status : Nat)
  | genericError
deriving DecidableEq

/-- `statusCode` of each error class (`TimeoutError`/`NetworkError` never set
one; `SecEdgarApiError('Max retries exceeded')` has none either). -/
def ClassifiedError.statusCode : ClassifiedError → Option Nat
  | .timeoutError => none
  | .networkError => none
  | .authenticationError => some 401
  | .notFoundError => some 404
  | .rateLimitError => some 429
  | .requestError s => some s
  | .genericError => none

/-- `handleHttpError`: map a non-ok response status to the thrown error. -/
def handleHttpError (status : Nat) : ClassifiedError :=
  match status with
  | 401 => .authenticationError
  | 404 => .notFoundError
  | 429 => .rateLimitError
  | s => .requestError s

/-- The catch-block classification, in source order: `AbortError` name check,
network-marker message check, `instanceof SecEdgarApiError`, generic. -/
def classifyFailure : AttemptOutcome → ClassifiedError
  | .abortError => .timeoutError
  | .networkMessage => .networkError
  | .httpStatus s => handleHttpError s
  | .jsonError => .genericError
  | .ok => .genericError

/-- `error.statusCode && error.statusCode >= 400 && error.statusCode < 500 &&
error.statusCode !== 429`: throw without retrying. -/
def throwsImmediately (e : ClassifiedError) : Bool :=
  match e.statusCode with
  | some s => decide (s ≠ 0 ∧ 400 ≤ s ∧ s < 500 ∧ s ≠ 429)
  | none => false

inductive GetResult where
  | success
  | thrown (e : ClassifiedError)
deriving DecidableEq

/-- Observable outcome of one `get` call: final result, attempts performed,
and the backoff sleeps taken between attempts. -/
structure GetRun where
  result : GetResult
  attempts : Nat
  sleeps : List Nat
deriving DecidableEq

/-- The `for (attempt = 0; attempt <= maxRetries; attempt++)` loop.  `fuel`
is `maxRetries + 1 - attempt`, so the fuel-exhausted branch is the fall-through
`throw lastError || new SecEdgarApiError('Max retries exceeded')`. -/
def httpGetAux (outcomes : Nat → AttemptOutcome) (maxRetries : Nat) :
    Nat → Nat → List Nat → Option ClassifiedError → GetRun
  | attempt, 0, sleeps, lastError =>
    { result := .thrown (lastError.getD .genericError), attempts := attempt,
      sleeps := sleeps }
  | attempt, fuel + 1, sleeps, _ =>
    match outcomes attempt with
    | .ok => { result := .success, attempts := attempt + 1, sleeps := sleeps }
    | o =>
      let e := classifyFailure o
      if throwsImmediately e then
        { result := .thrown e, attempts := attempt + 1, sleeps := sleeps }
      else if attempt = maxRetries then
        { result := .thrown e, attempts := attempt + 1, sleeps := sleeps }
      else
        httpGetAux outcomes maxRetries (attempt + 1) fuel
          (sleeps ++ [2 ^ attempt * 1000]) (some e)

/-- `HttpClient.get` retry behaviour on a trace of attempt outcomes. -/
def httpGet (maxRetries : Nat) (outcomes : Nat → AttemptOutcome) : GetRun :=
  httpGetAux outcomes maxRetries 0 (maxRetries + 1) [] none

/-- `ErrorHandler.isRetryable` from `exceptions/errors.ts`. -/
def ErrorHandler.isRetryable : ClassifiedError → Bool
  | .rateLimitError => true
  | .timeoutError => true
  | .networkError => true
  | .requestError s => decide (s ≠ 0 ∧ 500 ≤ s) || decide (s = 408)
  | _ => false

/-- `ErrorHandler.getRetryDelay` from `exceptions/errors.ts`:
`min(60000, 2^attempt * 5000)` for rate limits, `min(30000, 2^attempt * 1000)`
otherwise. -/
def ErrorHandler.getRetryDelay (e : ClassifiedError) (attempt : Nat) : Nat :=
  if e = .rateLimitError then min 60000 (2 ^ attempt * 5000)
  else min 30000 (2 ^ attempt * 1000)

/-- C1: the claim states that 408 request errors are retried up to the
configured maximum like 5xx/429/timeout/network errors, every other 4xx being
surfaced immediately.  `HttpClient.get` surfaces 408 immediately instead
(`statusCode >= 400 && statusCode < 500 && statusCode !== 429` catches it),
contradicting the repository's own `ErrorHandler.isRetryable` (and its test
suite), which classifies 408 as retryable.  The evaluations at 503/400/429
confirm the remainder of the claimed classification. -/
theorem httpGet_408_not_retried_divergence :
    httpGet 3 (fun _ => .httpStatus 408)
      = { result := .thrown (.requestError 408), attempts := 1, sleeps := [] } ∧
    ErrorHandler.isRetryable (.requestError 408) = true ∧
    httpGet 3 (fun _ => .httpStatus 503)
      = { result := .thrown (.requestError 503), attempts := 4,
          sleeps := [1000, 2000, 4000] } ∧
    httpGet 3 (fun _ => .httpStatus 400)
      = { result := .thrown (.requestError 400), attempts := 1, sleeps := [] } ∧
    httpGet 3 (fun _ => .httpStatus 429)
      = { result := .thrown .rateLimitError, attempts := 4,
          sleeps := [1000, 2000, 4000] } := by
  decide

/-- C2: the claim states that rate-limit-triggered retries use a larger
backoff (base ~5s doubling, attempt 1 ≈ 10000 ms, capped at 60 s).
`HttpClient.get` sleeps `Math.pow(2, attempt) * 1000` for every retryable
error including 429 — after attempts 0/1/2 it sleeps 1000/2000/4000 ms with no
429-specific schedule and no 60 s cap — while the repository's own
`ErrorHandler.getRetryDelay` (asserted by its test suite) implements exactly
the claimed schedule but is never consulted by `HttpClient.get`. -/
theorem httpGet_429_backoff_divergence :
    httpGet 3 (fun _ => .httpStatus 429)
      = { result := .thrown .rateLimitError, attempts := 4,
          sleeps := [1000, 2000, 4000] } ∧
    ErrorHandler.getRetryDelay .rateLimitError 0 = 5000 ∧
    ErrorHandler.getRetryDelay .rateLimitError 1 = 10000 ∧
    ErrorHandler.getRetryDelay .rateLimitError 10 = 60000 ∧
    ErrorHandler.getRetryDelay (.requestError 503) 1 = 2000 ∧
    (2000 : Nat) ≠ 10000 := by
  decide

/-! ## String helpers with JavaScript semantics (shared) -/

/-- `String.prototype.toLowerCase` (ASCII-faithful). -/
def strToLower (s : String) : String := ⟨s.data.map Char.toLower⟩

/-- `String.prototype.includes` on character lists. -/
def jsIncludesList : List Char → List Char → Bool
  | [], needle => needle.isEmpty
  | c :: t, needle => needle.isPrefixOf (c :: t) || jsIncludesList t needle

/-- `hay.includes(needle)`. -/
def jsIncludes (hay needle : String) : Bool := jsIncludesList hay.data needle.data

/-! ## `src/typescript/src/edgar.ts` — `FinancialFormParser` derived ratios

JavaScript numbers are modelled as exact rationals: the claims concern the
null/computed branch structure and the formulas used, not float rounding.
`Date` fields are epoch integers. -/

/-- `interface BalanceSheetItem` (= `IncomeStatementItem`). -/
structure BalanceSheetItem where
  label : String
  value : ℚ
  units : String
  period : String
  filed : Int
deriving DecidableEq

structure BalanceSheetAssets where
  currentAssets : List BalanceSheetItem
  nonCurrentAssets : List BalanceSheetItem
  totalAssets : Option BalanceSheetItem
deriving DecidableEq

structure BalanceSheetLiabilities where
  currentLiabilities : List BalanceSheetItem
  nonCurrentLiabilities : List BalanceSheetItem
  totalLiabilities : Option BalanceSheetItem
deriving DecidableEq

structure BalanceSheetEquity where
  totalEquity : Option BalanceSheetItem
  retainedEarnings : Option BalanceSheetItem
deriving DecidableEq

structure BalanceSheet where
  assets : BalanceSheetAssets
  liabilities : BalanceSheetLiabilities
  equity : BalanceSheetEquity
deriving DecidableEq

structure IncomeStatement where
  revenue : Option BalanceSheetItem
  grossProfit : Option BalanceSheetItem
  operatingIncome : Option BalanceSheetItem
  netIncome : Option BalanceSheetItem
  earningsPerShare : Option BalanceSheetItem
  operatingExpenses : List BalanceSheetItem
deriving DecidableEq

/-- `items.reduce((sum, item) => sum + item.value, 0)`. -/
def sumValues (items : List BalanceSheetItem) : ℚ :=
  items.foldl (fun sum item => sum + item.value) 0

/-- `calculateDebtToEquity`: `totalLiabilities && totalEquity &&
totalEquity !== 0` (`0` values are falsy). -/
def FinancialFormParser.calculateDebtToEquity (bs : BalanceSheet) : Option ℚ :=
  match bs.liabilities.totalLiabilities, bs.equity.totalEquity with
  | some tl, some te =>
    if tl.value ≠ 0 ∧ te.value ≠ 0 then some (tl.value / te.value) else none
  | _, _ => none

/-- `calculateROE`: `netIncome && totalEquity && totalEquity !== 0`. -/
def FinancialFormParser.calculateROE (inc : IncomeStatement) (bs : BalanceSheet) :
    Option ℚ :=
  match inc.netIncome, bs.equity.totalEquity with
  | some ni, some te =>
    if ni.value ≠ 0 ∧ te.value ≠ 0 then some (ni.value / te.value) else none
  | _, _ => none

/-- `calculateCurrentRatio`: sums of the current-asset and current-liability
line items, guarded by truthiness of both sums. -/
def FinancialFormParser.calculateCurrentRatio (bs : BalanceSheet) : Option ℚ :=
  let currentAssets := sumValues bs.assets.currentAssets
  let currentLiabilities := sumValues bs.liabilities.currentLiabilities
  if currentAssets ≠ 0 ∧ currentLiabilities ≠ 0 then
    some (currentAssets / currentLiabilities)
  else none

/-- The quick-asset accumulation loop of `calculateQuickRatio`: sum of
current assets whose lowercased label mentions none of inventory, prepaid,
deferred, or other current assets. -/
def quickAssetsFiltered (currentAssets : List BalanceSheetItem) : ℚ :=
  currentAssets.foldl
    (fun quickAssets asset =>
      let label := strToLower asset.label
      if ¬ (jsIncludes label "inventory" = true) ∧
          ¬ (jsIncludes label "prepaid" = true) ∧
          ¬ (jsIncludes label "deferred" = true) ∧
          ¬ (jsIncludes label "other current assets" = true) then
        quickAssets + asset.value
      else quickAssets) 0

/-- `calculateQuickRatio`: the filtered sum; when it is 0 and line items
exist, fall back to total minus an isolated inventory item, or to 80% of the
total when no inventory line can be found. -/
def FinancialFormParser.calculateQuickRatio (bs : BalanceSheet) : Option ℚ :=
  let currentAssets := bs.assets.currentAssets
  let quickAssets0 := quickAssetsFiltered currentAssets
  let quickAssets :=
    if quickAssets0 = 0 ∧ currentAssets ≠ [] then
      let totalCurrentAssets := sumValues currentAssets
      match currentAssets.find? (fun asset =>
          jsIncludes (strToLower asset.label) "inventory") with
      | some inventory => totalCurrentAssets - inventory.value
      | none => totalCurrentAssets * (4 / 5 : ℚ)
    else quickAssets0
  let currentLiabilities := sumValues bs.liabilities.currentLiabilities
  if quickAssets ≠ 0 ∧ currentLiabilities ≠ 0 then
    some (quickAssets / currentLiabilities)
  else none

/-- C8: each derived ratio is computed only when all of its required inputs
are present and its denominator is non-zero, and is null otherwise (the two
directions coincide since the result is an option); the quick ratio falls
back to 80% of total current assets when no inventory line item can be
isolated from the current assets. -/
theorem financial_ratio_guards (bs : BalanceSheet) (inc : IncomeStatement) :
    (∀ r, FinancialFormParser.calculateDebtToEquity bs = some r →
      ∃ tl te, bs.liabilities.totalLiabilities = some tl ∧
        bs.equity.totalEquity = some te ∧ te.value ≠ 0 ∧
        r = tl.value / te.value) ∧
    ((bs.liabilities.totalLiabilities = none ∨ bs.equity.totalEquity = none ∨
        (∃ te, bs.equity.totalEquity = some te ∧ te.value = 0)) →
      FinancialFormParser.calculateDebtToEquity bs = none) ∧
    (∀ r, FinancialFormParser.calculateROE inc bs = some r →
      ∃ ni te, inc.netIncome = some ni ∧ bs.equity.totalEquity = some te ∧
        te.value ≠ 0 ∧ r = ni.value / te.value) ∧
    (∀ r, FinancialFormParser.calculateCurrentRatio bs = some r →
      sumValues bs.liabilities.currentLiabilities ≠ 0 ∧
      r = sumValues bs.assets.currentAssets /
          sumValues bs.liabilities.currentLiabilities) ∧
    (∀ r, FinancialFormParser.calculateQuickRatio bs = some r →
      sumValues bs.liabilities.currentLiabilities ≠ 0) ∧
    (quickAssetsFiltered bs.assets.currentAssets = 0 →
      bs.assets.currentAssets ≠ [] →
      bs.assets.currentAssets.find? (fun asset =>
        jsIncludes (strToLower asset.label) "inventory") = none →
      sumValues bs.assets.currentAssets * (4 / 5 : ℚ) ≠ 0 →
      sumValues bs.liabilities.currentLiabilities ≠ 0 →
      FinancialFormParser.calculateQuickRatio bs
        = some (sumValues bs.assets.currentAssets * (4 / 5 : ℚ) /
            sumValues bs.liabilities.currentLiabilities)) := by
  refine ⟨?_, ?_, ?_, ?_, ?_, ?_⟩
  · intro r hr
    unfold FinancialFormParser.calculateDebtToEquity at hr
    match htl : bs.liabilities.totalLiabilities, hte : bs.equity.totalEquity with
    | some tl, some te =>
      rw [htl, hte] at hr
      have hr' : (if tl.value ≠ 0 ∧ te.value ≠ 0 then
          some (tl.value / te.value) else none) = some r := hr
      by_cases hc : tl.value ≠ 0 ∧ te.value ≠ 0
      · rw [if_pos hc] at hr'
        exact ⟨tl, te, rfl, rfl, hc.2, (Option.some_injective _ hr').symm⟩
      · rw [if_neg hc] at hr'
        exact absurd hr' (by simp)
    | some _, none => rw [htl, hte] at hr; exact absurd hr (by simp)
    | none, some _ => rw [htl, hte] at hr; exact absurd hr (by simp)
    | none, none => rw [htl, hte] at hr; exact absurd hr (by simp)
  · intro hmiss
    unfold FinancialFormParser.calculateDebtToEquity
    match htl : bs.liabilities.totalLiabilities, hte : bs.equity.totalEquity with
    | some tl, some te =>
      rcases hmiss with h | h | ⟨te', hte', hz⟩
      · rw [htl] at h; exact absurd h (by simp)
      · rw [hte] at h; exact absurd h (by simp)
      · rw [hte] at hte'
        have hee : te' = te := Option.some_injective _ hte'.symm
        subst hee
        have hneg : ¬ (tl.value ≠ 0 ∧ te'.value ≠ 0) := fun hc => hc.2 hz
        show (if tl.value ≠ 0 ∧ te'.value ≠ 0 then
            some (tl.value / te'.value) else none) = none
        rw [if_neg hneg]
    | some _, none => rfl
    | none, some _ => rfl
    | none, none => rfl
  · intro r hr
    unfold FinancialFormParser.calculateROE at hr
    match hni : inc.netIncome, hte : bs.equity.totalEquity with
    | some ni, some te =>
      rw [hni, hte] at hr
      have hr' : (if ni.value ≠ 0 ∧ te.value ≠ 0 then
          some (ni.value / te.value) else none) = some r := hr
      by_cases hc : ni.value ≠ 0 ∧ te.value ≠ 0
      · rw [if_pos hc] at hr'
        exact ⟨ni, te, rfl, rfl, hc.2, (Option.some_injective _ hr').symm⟩
      · rw [if_neg hc] at hr'
        exact absurd hr' (by simp)
    | some _, none => rw [hni, hte] at hr; exact absurd hr (by simp)
    | none, some _ => rw [hni, hte] at hr; exact absurd hr (by simp)
    | none, none => rw [hni, hte] at hr; exact absurd hr (by simp)
  · intro r hr
    unfold FinancialFormParser.calculateCurrentRatio at hr
    by_cases hc : sumValues bs.assets.currentAssets ≠ 0 ∧
        sumValues bs.liabilities.currentLiabilities ≠ 0
    · rw [if_pos hc] at hr
      exact ⟨hc.2, (Option.some_injective _ hr).symm⟩
    · rw [if_neg hc] at hr
      exact absurd hr (by simp)
  · intro r hr
    unfold FinancialFormParser.calculateQuickRatio at hr
    set qa := (if quickAssetsFiltered bs.assets.currentAssets = 0 ∧
          bs.assets.currentAssets ≠ [] then
        match bs.assets.currentAssets.find? (fun asset =>
            jsIncludes (strToLower asset.label) "inventory") with
        | some inventory => sumValues bs.assets.currentAssets - inventory.value
        | none => sumValues bs.assets.currentAssets * (4 / 5 : ℚ)
      else quickAssetsFiltered bs.assets.currentAssets) with hqa
    by_cases hc : qa ≠ 0 ∧ sumValues bs.liabilities.currentLiabilities ≠ 0
    · exact hc.2
    · rw [if_neg hc] at hr
      exact absurd hr (by simp)
  · intro h0 hne hfind hq80 hcl
    simp [FinancialFormParser.calculateQuickRatio, h0, hne, hfind, hq80, hcl]

/-- Witness for C8: a single "other current assets" line of 10 with current
liabilities of 4 exercises the 80% fallback: the quick ratio is (10·0.8)/4. -/
theorem financial_ratio_guards_witness :
    FinancialFormParser.calculateQuickRatio
      { assets :=
          { currentAssets := [⟨"Other Current Assets", 10, "USD", "FY24", 0⟩],
            nonCurrentAssets := [], totalAssets := none },
        liabilities :=
          { currentLiabilities := [⟨"Accounts Payable", 4, "USD", "FY24", 0⟩],
            nonCurrentLiabilities := [], totalLiabilities := none },
        equity := { totalEquity := none, retainedEarnings := none } }
      = some 2 := by
  have h := (financial_ratio_guards
      { assets :=
          { currentAssets := [⟨"Other Current Assets", 10, "USD", "FY24", 0⟩],
            nonCurrentAssets := [], totalAssets := none },
        liabilities :=
          { currentLiabilities := [⟨"Accounts Payable", 4, "USD", "FY24", 0⟩],
            nonCurrentLiabilities := [], totalLiabilities := none },
        equity := { totalEquity := none, retainedEarnings := none } }
      { revenue := none, grossProfit := none, operatingIncome := none,
        netIncome := none, earningsPerShare := none,
        operatingExpenses := [] }).2.2.2.2.2
    (by decide) (by decide) (by decide) (by norm_num [sumValues])
    (by norm_num [sumValues])
  rw [h]
  norm_num [sumValues]

/-! ## `src/typescript/src/parsers/ownership-forms.ts` — `OwnershipFormParser`

The constructor feeds the raw text to the external `fast-xml-parser` library
and wraps any parse throw in `OwnershipFormParseError`; it then eagerly calls
`extractFormType`, which throws `OwnershipFormParseError` itself when neither
a `documentType` nor a `schemaVersion` can be found.  The external library is
not repository code, so the embedding quantifies over its outcome
(`Except String XmlVal`): for input text that is not XML the library either
throws, or returns an object tree carrying no `documentType`/`schemaVersion`
information. -/

/-- The object tree produced by `XMLParser.parse`: string leaves,
insertion-ordered objects, arrays for repeated tags. -/
inductive XmlVal where
  | str (s : String)
  | arr (items : List XmlVal)
  | obj (fields : List (String × XmlVal))

/-- JS truthiness of a parsed value (only the empty string is falsy here). -/
def XmlVal.falsy : XmlVal → Bool
  | .str s => s = ""
  | .arr _ => false
  | .obj _ => false

/-- `current[key]` (string/array index access never yields these tag names). -/
def xmlProp : XmlVal → String → Option XmlVal
  | .obj fields, k => jsMapGet fields k
  | _, _ => none

mutual

/-- `element.toString()`: strings verbatim, objects as `[object Object]`,
arrays comma-joined. -/
def XmlVal.toStr : XmlVal → String
  | .str s => s
  | .obj _ => "[object Object]"
  | .arr items => String.intercalate "," (XmlVal.toStrList items)

def XmlVal.toStrList : List XmlVal → List String
  | [] => []
  | v :: rest => XmlVal.toStr v :: XmlVal.toStrList rest

end

/-- `String.prototype.trim` over JS whitespace. -/
def isJsWS (c : Char) : Bool :=
  c = ' ' || c = '\t' || c = '\n' || c = '\r' || c.toNat = 11 || c.toNat = 12 ||
    c.toNat = 160

def jsTrimList (l : List Char) : List Char :=
  ((l.dropWhile isJsWS).reverse.dropWhile isJsWS).reverse

def jsTrim (s : String) : String := ⟨jsTrimList s.data⟩

/-- One step of `findNestedValue`: direct property access, then a
case-insensitive scan over the properties in insertion order. -/
def findNestedValueStep (current : XmlVal) (key : String) : Option XmlVal :=
  match xmlProp current key with
  | some v => some v
  | none =>
    match current with
    | .obj fields =>
      (fields.find? (fun p => strToLower p.1 = strToLower key)).map Prod.snd
    | _ => none

/-- `findNestedValue(obj, path)`: walk the path, returning null as soon as the
current value is falsy or a key cannot be found. -/
def findNestedValue : XmlVal → List String → Option XmlVal
  | current, [] => some current
  | current, key :: rest =>
    if current.falsy then none
    else
      match findNestedValueStep current key with
      | some next => findNestedValue next rest
      | none => none

/-- Exceptions thrown by the parsers (`OwnershipFormParseError` is the
dedicated parse-error kind; anything else is generic for our purposes). -/
inductive ThrownError where
  | ownershipFormParseError (msg : String)
  | invalidFormTypeError (formType : String)
  | genericError (msg : String)
deriving DecidableEq

instance {ε α : Type} [DecidableEq ε] [DecidableEq α] : DecidableEq (Except ε α) :=
  fun a b =>
  match a, b with
  | .error e1, .error e2 =>
    if h : e1 = e2 then .isTrue (congrArg Except.error h)
    else .isFalse (fun hc => h (Except.error.inj hc))
  | .ok v1, .ok v2 =>
    if h : v1 = v2 then .isTrue (congrArg Except.ok h)
    else .isFalse (fun hc => h (Except.ok.inj hc))
  | .error _, .ok _ => .isFalse (fun hc => Except.noConfusion hc)
  | .ok _, .error _ => .isFalse (fun hc => Except.noConfusion hc)

/-- `this.root.ownershipDocument || this.root`. -/
def ownershipDocOf (root : XmlVal) : XmlVal :=
  match xmlProp root "ownershipDocument" with
  | some d => if d.falsy then root else d
  | none => root

/-- Truthiness of a `findNestedValue` result (`null` and `''` are falsy). -/
def truthyOpt (v : Option XmlVal) : Bool :=
  match v with
  | some x => ! x.falsy
  | none => false

/-- `extractFormType`: explicit `documentType` if truthy; else Form 4 when a
`schemaVersion` marker is present; else throw `OwnershipFormParseError`. -/
def extractFormType (root : XmlVal) : Except ThrownError String :=
  let doc := ownershipDocOf root
  let documentType := findNestedValue doc ["documentType"]
  if truthyOpt documentType then
    .ok (jsTrim (documentType.getD (.str "")).toStr)
  else
    let schemaVersion := findNestedValue doc ["schemaVersion"]
    if truthyOpt schemaVersion then .ok "4"
    else .error (.ownershipFormParseError "Could not determine form type from XML")

/-- The constructor body: wrap a library throw in `OwnershipFormParseError`,
then eagerly run `extractFormType`; on success the parser instance holds the
root and the form type. -/
def OwnershipFormParser.construct (parseResult : Except String XmlVal) :
    Except ThrownError (XmlVal × String) :=
  match parseResult with
  | .error msg =>
    .error (.ownershipFormParseError ("Failed to parse XML: " ++ msg))
  | .ok root =>
    match extractFormType root with
    | .ok formType => .ok (root, formType)
    | .error e => .error e

/-- A parse of text that is not XML: the library either throws, or yields a
tree without usable `documentType`/`schemaVersion` fields. -/
def notXmlDoc (root : XmlVal) : Bool :=
  (! truthyOpt (findNestedValue (ownershipDocOf root) ["documentType"])) &&
  (! truthyOpt (findNestedValue (ownershipDocOf root) ["schemaVersion"]))

def NotXmlOutcome : Except String XmlVal → Prop
  | .error _ => True
  | .ok root => notXmlDoc root = true

/-- C5: constructing the ownership-form parser on text that cannot be parsed
as XML throws the dedicated `OwnershipFormParseError` (never a generic error,
never a successful construction) synchronously inside the constructor, before
any field accessor or parse method runs — for every library outcome consistent
with non-XML input. -/
theorem ownership_constructor_parse_error (parseResult : Except String XmlVal)
    (h : NotXmlOutcome parseResult) :
    ∃ msg, OwnershipFormParser.construct parseResult
      = .error (.ownershipFormParseError msg) := by
  match parseResult with
  | .error libMsg =>
    exact ⟨"Failed to parse XML: " ++ libMsg, rfl⟩
  | .ok root =>
    have h' : notXmlDoc root = true := h
    rw [notXmlDoc, Bool.and_eq_true] at h'
    have h1 : truthyOpt (findNestedValue (ownershipDocOf root) ["documentType"])
        = false := by
      rcases h' with ⟨h1, _⟩
      simpa using h1
    have h2 : truthyOpt (findNestedValue (ownershipDocOf root) ["schemaVersion"])
        = false := by
      rcases h' with ⟨_, h2⟩
      simpa using h2
    refine ⟨"Could not determine form type from XML", ?_⟩
    unfold OwnershipFormParser.construct
    simp [extractFormType, h1, h2]

/-- Witness for C5 at the tree `fast-xml-parser` yields for tag-free text
(an empty object), and at a library throw. -/
theorem ownership_constructor_parse_error_witness :
    (∃ msg, OwnershipFormParser.construct (.ok (XmlVal.obj []))
      = .error (.ownershipFormParseError msg)) ∧
    (∃ msg, OwnershipFormParser.construct (.error "unexpected token")
      = .error (.ownershipFormParseError msg)) := by
  constructor
  · exact ownership_constructor_parse_error (.ok (XmlVal.obj []))
      (show notXmlDoc (XmlVal.obj []) = true by rfl)
  · exact ownership_constructor_parse_error (.error "unexpected token") trivial

/-! ## `src/typescript/src/edgar.ts` — `FinancialFormParser.getRiskFactors`

Regex machinery specialised to the patterns the method uses: a
case-insensitive literal alternation for `extractSection`, and the zero-width
split `/(?=•|·|\d+\.|\n\n)/`. -/

/-- Case-insensitive literal prefix match (the `i` flag on a literal). -/
def ciPrefix : List Char → List Char → Bool
  | [], _ => true
  | _ :: _, [] => false
  | a :: as, b :: bs => (a.toLower = b.toLower) && ciPrefix as bs

/-- Index of the first suffix satisfying `p` (a leftmost regex match). -/
def firstMatchIdxAux (p : List Char → Bool) : List Char → Nat → Option Nat
  | [], _ => none
  | c :: rest, i =>
    if p (c :: rest) then some i else firstMatchIdxAux p rest (i + 1)

/-- `String.prototype.indexOf(needle, from)`, `-1` when absent. -/
def jsIndexOfFrom (hay needle : List Char) (start : Nat) : Int :=
  match firstMatchIdxAux (fun cs => needle.isPrefixOf cs) (hay.drop start) 0 with
  | some i => (start : Int) + i
  | none => -1

/-- `String.prototype.substring`: clamp both ends to `[0, len]` and swap when
reversed. -/
def jsSubstring (s : String) (a b : Int) : String :=
  let len : Int := (s.data.length : Int)
  let a' := min (max a 0) len
  let b' := min (max b 0) len
  let lo := min a' b'
  let hi := max a' b'
  ⟨(s.data.take hi.toNat).drop lo.toNat⟩

/-- `FinancialFormParser.extractSection` for a literal-alternation pattern:
first case-insensitive match of any alternative starts the section, which
runs to the next `</DOCUMENT>` when that lies strictly beyond index 0, else
50000 characters. -/
def FinancialFormParser.extractSection (rawContent : String)
    (alternatives : List String) : String :=
  match firstMatchIdxAux
      (fun cs => alternatives.any (fun a => ciPrefix a.data cs))
      rawContent.data 0 with
  | none => ""
  | some startIndex =>
    let endIndex := jsIndexOfFrom rawContent.data "</DOCUMENT>".data startIndex
    jsSubstring rawContent (startIndex : Int)
      (if endIndex > 0 then endIndex else (startIndex : Int) + 50000)

def isAsciiDigit (c : Char) : Bool := '0' ≤ c && c ≤ '9'

/-- The `\d+\.` lookahead: a digit run followed by a literal dot. -/
def digitRunDot (cs : List Char) : Bool :=
  let ds := cs.takeWhile isAsciiDigit
  !ds.isEmpty && ((cs.drop ds.length).head? == some '.')

/-- The zero-width split point `(?=•|·|\d+\.|\n\n)`. -/
def riskSplitPoint : List Char → Bool
  | [] => false
  | c :: rest =>
    c = '•' || c = '·' || digitRunDot (c :: rest) ||
      (c = '\n' && rest.head? == some '\n')

/-- `String.prototype.split` on a zero-width lookahead: split before every
position (other than 0) whose suffix satisfies `p`. -/
def splitLookaheadAux (p : List Char → Bool) :
    List Char → List Char → Bool → List (List Char)
  | acc, [], _ => [acc.reverse]
  | acc, c :: rest, isStart =>
    if ¬ isStart ∧ p (c :: rest) = true then
      acc.reverse :: splitLookaheadAux p [c] rest false
    else
      splitLookaheadAux p (c :: acc) rest false

def jsSplitLookahead (p : List Char → Bool) (s : String) : List String :=
  (splitLookaheadAux p [] s.data true).map (fun l => String.mk l)

/-- `substring(0, n)`. -/
def strTake (s : String) (n : Nat) : String := ⟨s.data.take n⟩

inductive Severity where
  | low
  | medium
  | high
deriving DecidableEq

structure RiskFactor where
  category : String
  description : String
  severity : Severity
deriving DecidableEq

/-- `assessRiskSeverity`: fixed keyword membership, high list first. -/
def assessRiskSeverity (riskText : String) : Severity :=
  let text := strToLower riskText
  if ["material adverse", "significant risk", "substantial risk",
      "could result in"].any (fun k => jsIncludes text k) then .high
  else if ["may affect", "potential impact",
      "could impact"].any (fun k => jsIncludes text k) then .medium
  else .low

/-- `extractRiskCategory`: first category whose keyword list hits. -/
def extractRiskCategory (riskText : String) : String :=
  let text := strToLower riskText
  let categories : List (List String × String) :=
    [(["market", "competition", "customer"], "Market Risk"),
     (["regulation", "compliance", "legal"], "Regulatory Risk"),
     (["technology", "cyber", "security"], "Technology Risk"),
     (["financial", "credit", "liquidity"], "Financial Risk"),
     (["operational", "supply chain", "manufacturing"], "Operational Risk")]
  match categories.find? (fun cat => cat.1.any (fun k => jsIncludes text k)) with
  | some cat => cat.2
  | none => "General Risk"

/-- `getRiskFactors`: section, split, filter by trimmed length > 50, build
records with 500-character descriptions, keep the top 10. -/
def FinancialFormParser.getRiskFactors (rawContent : String) : List RiskFactor :=
  let riskSection := FinancialFormParser.extractSection rawContent
    ["RISK FACTORS", "ITEM 1A"]
  let factors := (jsSplitLookahead riskSplitPoint riskSection).filter
    (fun f => (jsTrim f).length > 50)
  (factors.map (fun factor =>
    { category := extractRiskCategory factor,
      description := strTake (jsTrim factor) 500,
      severity := assessRiskSeverity factor })).take 10

/-- C9: for every input text, `getRiskFactors` returns at most 10 records,
each with a description of at most 500 characters. -/
theorem risk_factors_bounds (rawContent : String) :
    (FinancialFormParser.getRiskFactors rawContent).length ≤ 10 ∧
    ∀ rf ∈ FinancialFormParser.getRiskFactors rawContent,
      rf.description.length ≤ 500 := by
  constructor
  · unfold FinancialFormParser.getRiskFactors
    simp only [List.length_take]
    exact min_le_left _ _
  · intro rf hrf
    unfold FinancialFormParser.getRiskFactors at hrf
    have hrf' := List.mem_of_mem_take hrf
    rcases List.mem_map.mp hrf' with ⟨factor, _, heq⟩
    have : rf.description = strTake (jsTrim factor) 500 := by
      rw [← heq]
    rw [this]
    show ((jsTrim factor).data.take 500).length ≤ 500
    simp [List.length_take]

/-- Witness for C9 on a concrete filing text. -/
theorem risk_factors_bounds_witness :
    (FinancialFormParser.getRiskFactors "ITEM 1A. RISK FACTORS\n\nWe depend on a single supplier for key manufacturing inputs and a loss could result in material adverse effects.").length ≤ 10 := by
  exact (risk_factors_bounds _).1

/-! ## `src/typescript/src/parsers/item-extractor.ts` — `ItemExtractor`

The regexes the extractor builds are specialised matchers over character
lists: `escapeRegex` turns item numbers, titles and aliases into
case-insensitive literals, so they are matched literally here. -/

inductive FormType where
  | form10K
  | form10Q
  | form8K
  | form20F
  | form40F
deriving DecidableEq

structure ItemDefinition where
  number : String
  title : String
  aliases : List String := []
  required : Option Bool := none
deriving DecidableEq

def FORM_10K_ITEMS : List ItemDefinition :=
  [{ number := "1", title := "Business" },
   { number := "1A", title := "Risk Factors" },
   { number := "1B", title := "Unresolved Staff Comments" },
   { number := "1C", title := "Cybersecurity", required := some false },
   { number := "2", title := "Properties" },
   { number := "3", title := "Legal Proceedings" },
   { number := "4", title := "Mine Safety Disclosures", required := some false },
   { number := "5", title := "Market for Registrant's Common Equity" },
   { number := "6", title := "Reserved", required := some false },
   { number := "7", title := "Management's Discussion and Analysis",
     aliases := ["MD&A"] },
   { number := "7A",
     title := "Quantitative and Qualitative Disclosures About Market Risk" },
   { number := "8", title := "Financial Statements and Supplementary Data" },
   { number := "9", title := "Changes in and Disagreements with Accountants" },
   { number := "9A", title := "Controls and Procedures" },
   { number := "9B", title := "Other Information" },
   { number := "9C", title := "Disclosure Regarding Foreign Jurisdictions",
     required := some false },
   { number := "10",
     title := "Directors, Executive Officers and Corporate Governance" },
   { number := "11", title := "Executive Compensation" },
   { number := "12", title := "Security Ownership" },
   { number := "13", title := "Certain Relationships and Related Transactions" },
   { number := "14", title := "Principal Accountant Fees and Services" },
   { number := "15", title := "Exhibits and Financial Statement Schedules" }]

def FORM_10Q_ITEMS : List ItemDefinition :=
  [{ number := "1", title := "Financial Statements" },
   { number := "2", title := "Management's Discussion and Analysis",
     aliases := ["MD&A"] },
   { number := "3",
     title := "Quantitative and Qualitative Disclosures About Market Risk" },
   { number := "4", title := "Controls and Procedures" },
   { number := "1", title := "Legal Proceedings", aliases := ["Part II, Item 1"] },
   { number := "1A", title := "Risk Factors", aliases := ["Part II, Item 1A"] },
   { number := "2", title := "Unregistered Sales of Equity Securities",
     aliases := ["Part II, Item 2"] },
   { number := "3", title := "Defaults Upon Senior Securities",
     aliases := ["Part II, Item 3"] },
   { number := "4", title := "Mine Safety Disclosures",
     aliases := ["Part II, Item 4"], required := some false },
   { number := "5", title := "Other Information", aliases := ["Part II, Item 5"] },
   { number := "6", title := "Exhibits", aliases := ["Part II, Item 6"] }]

def FORM_8K_ITEMS : List ItemDefinition :=
  [{ number := "1.01", title := "Entry into a Material Definitive Agreement" },
   { number := "1.02", title := "Termination of a Material Definitive Agreement" },
   { number := "2.01", title := "Completion of Acquisition or Disposition of Assets" },
   { number := "2.02", title := "Results of Operations and Financial Condition" },
   { number := "2.03", title := "Creation of a Direct Financial Obligation" },
   { number := "3.01", title := "Notice of Delisting or Failure to Satisfy" },
   { number := "3.02", title := "Unregistered Sales of Equity Securities" },
   { number := "4.01", title := "Changes in Registrant's Certifying Accountant" },
   { number := "4.02", title := "Non-Reliance on Previously Issued Financial Statements" },
   { number := "5.01", title := "Changes in Control of Registrant" },
   { number := "5.02", title := "Departure of Directors or Certain Officers" },
   { number := "5.03", title := "Amendments to Articles of Incorporation or Bylaws" },
   { number := "7.01", title := "Regulation FD Disclosure" },
   { number := "8.01", title := "Other Events" },
   { number := "9.01", title := "Financial Statements and Exhibits" }]

/-- The `formItems` map: only 10-K/10-Q/8-K have registries. -/
def formItems : FormType → Option (List ItemDefinition)
  | .form10K => some FORM_10K_ITEMS
  | .form10Q => some FORM_10Q_ITEMS
  | .form8K => some FORM_8K_ITEMS
  | _ => none

def strToUpper (s : String) : String := ⟨s.data.map Char.toUpper⟩

/-- `parseFormType`: substring membership on the upper-cased input. -/
def parseFormType (formTypeStr : String) : Except ThrownError FormType :=
  let upperType := strToUpper formTypeStr
  if jsIncludes upperType "10-K" || jsIncludes upperType "10K" then .ok .form10K
  else if jsIncludes upperType "10-Q" || jsIncludes upperType "10Q" then .ok .form10Q
  else if jsIncludes upperType "8-K" || jsIncludes upperType "8K" then .ok .form8K
  else if jsIncludes upperType "20-F" || jsIncludes upperType "20F" then .ok .form20F
  else if jsIncludes upperType "40-F" || jsIncludes upperType "40F" then .ok .form40F
  else .error (.invalidFormTypeError formTypeStr)

/-- Part of `replace(/<[^>]+>/g, ' ')`: scan for the closing `>`. -/
def tagEndGo : List Char → Option (List Char)
  | [] => none
  | c :: r => if c = '>' then some r else tagEndGo r

/-- After a `<`: the suffix past the closing `>` when at least one non-`>`
character lies between (the `[^>]+` requires one). -/
def tagEnd : List Char → Option (List Char)
  | [] => none
  | c :: t => if c = '>' then none else tagEndGo t

theorem tagEndGo_length : ∀ (l r : List Char), tagEndGo l = some r →
    r.length < l.length := by
  intro l
  induction l with
  | nil => intro r h; simp [tagEndGo] at h
  | cons c t ih =>
    intro r h
    rw [tagEndGo] at h
    by_cases hc : c = '>'
    · rw [if_pos hc] at h
      have : t = r := by injection h
      subst this
      simp
    · rw [if_neg hc] at h
      have := ih r h
      simp
      omega

theorem tagEnd_length (l r : List Char) (h : tagEnd l = some r) :
    r.length < l.length := by
  match l with
  | [] => simp [tagEnd] at h
  | c :: t =>
    rw [tagEnd] at h
    by_cases hc : c = '>'
    · rw [if_pos hc] at h; exact absurd h (by simp)
    · rw [if_neg hc] at h
      have := tagEndGo_length t r h
      simp
      omega

/-- `content.replace(/<[^>]+>/g, ' ')`.  The scan consumes at least one
character per step (`tagEnd_length`), so fuel `l.length + 1` is never
exhausted; fuel keeps the recursion structural so that the kernel can
evaluate it. -/
def removeTagsGo : Nat → List Char → List Char
  | 0, _ => []
  | fuel + 1, l =>
    match l with
    | [] => []
    | c :: rest =>
      if c = '<' then
        match tagEnd rest with
        | some r => ' ' :: removeTagsGo fuel r
        | none => '<' :: removeTagsGo fuel rest
      else c :: removeTagsGo fuel rest

def removeTags (l : List Char) : List Char := removeTagsGo (l.length + 1) l

/-- `replace(/\s+/g, ' ')`: collapse whitespace runs to a single space. -/
def collapseWS : List Char → List Char
  | [] => []
  | [c] => if isJsWS c then [' '] else [c]
  | c1 :: c2 :: rest =>
    if isJsWS c1 && isJsWS c2 then collapseWS (c2 :: rest)
    else (if isJsWS c1 then ' ' else c1) :: collapseWS (c2 :: rest)

/-- Case-insensitive literal match at the head, returning the matched text
and the remainder. -/
def matchCI : List Char → List Char → Option (List Char × List Char)
  | [], cs => some ([], cs)
  | _ :: _, [] => none
  | a :: as, b :: bs =>
    if a.toLower = b.toLower then
      (matchCI as bs).map (fun p => (b :: p.1, p.2))
    else none

theorem matchCI_length : ∀ (lit cs m r : List Char), matchCI lit cs = some (m, r) →
    cs.length = lit.length + r.length := by
  intro lit
  induction lit with
  | nil =>
    intro cs m r h
    simp [matchCI] at h
    rw [h.2]
    simp
  | cons a as ih =>
    intro cs m r h
    match cs with
    | [] => simp [matchCI] at h
    | b :: bs =>
      rw [matchCI] at h
      by_cases hab : a.toLower = b.toLower
      · rw [if_pos hab] at h
        match hm : matchCI as bs with
        | none => rw [hm] at h; simp at h
        | some (m', r') =>
          rw [hm] at h
          simp at h
          have := ih bs m' r' hm
          simp [this, ← h.2]
          omega
      · rw [if_neg hab] at h
        simp at h

def isAZci (c : Char) : Bool :=
  ('A' ≤ c && c ≤ 'Z') || ('a' ≤ c && c ≤ 'z')

/-- `\d+[A-Z]?\.` with backtracking: a maximal digit run, then either a
letter followed by a dot, or a dot.  Returns the matched text (digits,
optional letter, dot) and the remainder. -/
def matchItemNumDot (cs : List Char) : Option (List Char × List Char) :=
  if (cs.takeWhile isAsciiDigit).isEmpty then none
  else
    match cs.drop (cs.takeWhile isAsciiDigit).length with
    | [] => none
    | c1 :: r1 =>
      if isAZci c1 then
        match r1 with
        | c2 :: r2 =>
          if c2 = '.' then some (cs.takeWhile isAsciiDigit ++ [c1, '.'], r2)
          else none
        | [] => none
      else if c1 = '.' then some (cs.takeWhile isAsciiDigit ++ ['.'], r1)
      else none

theorem matchItemNumDot_length (cs m r : List Char)
    (h : matchItemNumDot cs = some (m, r)) : r.length < cs.length := by
  unfold matchItemNumDot at h
  split at h
  · simp at h
  · split at h
    · simp at h
    · rename_i c1 r1 heq
      have hlen : (c1 :: r1).length ≤ cs.length := by
        rw [← heq]
        simp
      simp only [List.length_cons] at hlen
      split at h
      · split at h
        · rename_i c2 r2
          split at h
          · simp only [List.length_cons] at hlen
            simp at h
            rw [← h.2]
            omega
          · simp at h
        · simp at h
      · split at h
        · simp at h
          rw [← h.2]
          omega
        · simp at h

/-- `Item\s+\d+[A-Z]?\.` (case-insensitive), for the heading-break insertion
of `cleanContent`. -/
def matchItemHeadingDot (cs : List Char) : Option (List Char × List Char) :=
  match matchCI "item".data cs with
  | none => none
  | some (m1, r1) =>
    if (r1.takeWhile isJsWS).isEmpty then none
    else
      match matchItemNumDot (r1.drop (r1.takeWhile isJsWS).length) with
      | none => none
      | some (m2, r3) => some (m1 ++ r1.takeWhile isJsWS ++ m2, r3)

theorem matchItemHeadingDot_length (cs m r : List Char)
    (h : matchItemHeadingDot cs = some (m, r)) : r.length < cs.length := by
  unfold matchItemHeadingDot at h
  split at h
  · simp at h
  · rename_i m1 r1 h1
    have hcs : cs.length = 4 + r1.length := matchCI_length _ _ _ _ h1
    split at h
    · simp at h
    · split at h
      · simp at h
      · rename_i m2 r3 h2
        simp at h
        have hlt := matchItemNumDot_length _ _ _ h2
        have hdrop : (r1.drop (r1.takeWhile isJsWS).length).length ≤ r1.length := by
          simp
        rw [← h.2]
        omega

/-- `replace(/(Item\s+\d+[A-Z]?\.)/gi, '\n\n$1')`.  Each step consumes at
least one character (`matchItemHeadingDot_length`), so fuel `l.length + 1`
is never exhausted. -/
def insertItemBreaksGo : Nat → List Char → List Char
  | 0, _ => []
  | fuel + 1, l =>
    match l with
    | [] => []
    | c :: rest =>
      match matchItemHeadingDot (c :: rest) with
      | some (m, r) => '\n' :: '\n' :: (m ++ insertItemBreaksGo fuel r)
      | none => c :: insertItemBreaksGo fuel rest

def insertItemBreaks (l : List Char) : List Char :=
  insertItemBreaksGo (l.length + 1) l

/-- `cleanContent`: strip tags, collapse whitespace, re-insert paragraph
breaks before item headings, trim. -/
def ItemExtractor.cleanContent (content : String) : String :=
  jsTrim ⟨insertItemBreaks (collapseWS (removeTags content.data))⟩

/-- `TABLE\s+OF\s+CONTENTS` at the head (case-insensitive); remainder after. -/
def matchTocHeader (cs : List Char) : Option (List Char) :=
  match matchCI "table".data cs with
  | none => none
  | some (_, r1) =>
    if (r1.takeWhile isJsWS).isEmpty then none
    else
      match matchCI "of".data (r1.drop (r1.takeWhile isJsWS).length) with
      | none => none
      | some (_, r2) =>
        if (r2.takeWhile isJsWS).isEmpty then none
        else
          match matchCI "contents".data (r2.drop (r2.takeWhile isJsWS).length) with
          | none => none
          | some (_, r3) => some r3

/-- Leftmost suffix where `f` yields a value. -/
def findMapSuffix {α : Type} (f : List Char → Option α) : List Char → Option α
  | [] => f []
  | c :: rest =>
    match f (c :: rest) with
    | some v => some v
    | none => findMapSuffix f rest

/-- `Item\s+1\.` at the head (case-insensitive). -/
def matchItem1Dot (cs : List Char) : Bool :=
  match matchCI "item".data cs with
  | none => false
  | some (_, r1) =>
    if (r1.takeWhile isJsWS).isEmpty then false
    else
      match r1.drop (r1.takeWhile isJsWS).length with
      | '1' :: '.' :: _ => true
      | _ => false

/-- `PART\s+I\s` at the head (case-insensitive). -/
def matchPartIws (cs : List Char) : Bool :=
  match matchCI "part".data cs with
  | none => false
  | some (_, r1) =>
    if (r1.takeWhile isJsWS).isEmpty then false
    else
      match r1.drop (r1.takeWhile isJsWS).length with
      | c :: d :: _ => (c.toLower = 'i') && isJsWS d
      | _ => false

/-- The lazy `(.*?)(?:Item\s+1\.|PART\s+I\s)` terminator. -/
def tocTerminatorAt (cs : List Char) : Bool := matchItem1Dot cs || matchPartIws cs

/-- A character group 2 of the TOC item pattern may contain: `[^\n\r.]`. -/
def group2Char (c : Char) : Bool := ¬ (c = '\n' ∨ c = '\r' ∨ c = '.')

/-- The `\s*([^\n\r.]+)` backtracking: give consumed whitespace back, latest
first, until group 2 can start; returns the remainder after group 2. -/
def wsBacktrack : List Char → List Char → Option (List Char)
  | [], [] => none
  | [], c :: rest =>
    if group2Char c then some ((c :: rest).dropWhile group2Char) else none
  | w :: wr, rest =>
    match rest with
    | c :: _ =>
      if group2Char c then some (rest.dropWhile group2Char)
      else wsBacktrack wr (w :: rest)
    | [] => wsBacktrack wr (w :: rest)

theorem dropWhile_length_le {α : Type} (p : α → Bool) :
    ∀ l : List α, (l.dropWhile p).length ≤ l.length := by
  intro l
  induction l with
  | nil => simp
  | cons c t ih =>
    rw [List.dropWhile_cons]
    by_cases h : p c = true
    · rw [if_pos h]
      simp
      omega
    · rw [if_neg h]

theorem takeWhile_length_le {α : Type} (p : α → Bool) :
    ∀ l : List α, (l.takeWhile p).length ≤ l.length := by
  intro l
  induction l with
  | nil => simp
  | cons c t ih =>
    rw [List.takeWhile_cons]
    by_cases h : p c = true
    · rw [if_pos h]
      simp
      omega
    · rw [if_neg h]
      simp

theorem wsBacktrack_length : ∀ (wsRev rest r4 : List Char),
    wsBacktrack wsRev rest = some r4 → r4.length < wsRev.length + rest.length := by
  intro wsRev
  induction wsRev with
  | nil =>
    intro rest r4 h
    cases rest with
    | nil => simp [wsBacktrack] at h
    | cons c t =>
      rw [show wsBacktrack [] (c :: t)
          = (if group2Char c then some ((c :: t).dropWhile group2Char) else none)
        from rfl] at h
      split at h
      · rename_i hg
        have heq : (c :: t).dropWhile group2Char = r4 := by injection h
        rw [← heq, List.dropWhile_cons, if_pos hg]
        have := dropWhile_length_le group2Char t
        simp
        omega
      · simp at h
  | cons w wr ih =>
    intro rest r4 h
    cases rest with
    | nil =>
      rw [show wsBacktrack (w :: wr) [] = wsBacktrack wr [w] from rfl] at h
      have := ih [w] r4 h
      simp at this
      simp
      omega
    | cons c t =>
      rw [show wsBacktrack (w :: wr) (c :: t)
          = (if group2Char c then some ((c :: t).dropWhile group2Char)
             else wsBacktrack wr (w :: c :: t)) from rfl] at h
      split at h
      · rename_i hg
        have heq : (c :: t).dropWhile group2Char = r4 := by injection h
        rw [← heq, List.dropWhile_cons, if_pos hg]
        have := dropWhile_length_le group2Char t
        simp
        omega
      · have := ih (w :: c :: t) r4 h
        simp at this
        simp
        omega

/-- One match of the TOC item pattern `Item\s+(\d+[A-Z]?)\.\s*([^\n\r.]+)`:
group 1 (digits and optional letter) and the remainder after the match. -/
def matchTocItemRef (cs : List Char) : Option (List Char × List Char) :=
  match matchCI "item".data cs with
  | none => none
  | some (_, r1) =>
    if (r1.takeWhile isJsWS).isEmpty then none
    else
      match matchItemNumDot (r1.drop (r1.takeWhile isJsWS).length) with
      | none => none
      | some (numDot, r3) =>
        match wsBacktrack (r3.takeWhile isJsWS).reverse
            (r3.drop (r3.takeWhile isJsWS).length) with
        | none => none
        | some r4 => some (numDot.dropLast, r4)

theorem matchTocItemRef_length (cs g r4 : List Char)
    (h : matchTocItemRef cs = some (g, r4)) : r4.length < cs.length := by
  unfold matchTocItemRef at h
  split at h
  · simp at h
  · rename_i m1 r1 h1
    have hcs : cs.length = 4 + r1.length := matchCI_length _ _ _ _ h1
    split at h
    · simp at h
    · split at h
      · simp at h
      · rename_i numDot r3 h2
        have h3 := matchItemNumDot_length _ _ _ h2
        have hd1 : (r1.drop (r1.takeWhile isJsWS).length).length ≤ r1.length := by
          simp
        split at h
        · simp at h
        · rename_i r4' h4
          have h5 := wsBacktrack_length _ _ _ h4
          simp at h
          have hlen : (r3.takeWhile isJsWS).length ≤ r3.length :=
            takeWhile_length_le _ _
          simp only [List.length_reverse, List.length_drop] at h5
          rw [← h.2]
          omega

/-- The `itemPattern.exec` loop over the TOC span: upper-cased group 1 with
the match index; `lastIndex` advances past each match.  Each step consumes at
least one character (`matchTocItemRef_length`), so fuel `l.length + 1` is
never exhausted. -/
def tocExecLoopGo : Nat → List Char → Nat → List (String × Nat)
  | 0, _, _ => []
  | fuel + 1, l, i =>
    match l with
    | [] => []
    | c :: rest =>
      match matchTocItemRef (c :: rest) with
      | some (g1, r4) =>
        (strToUpper ⟨g1⟩, i) ::
          tocExecLoopGo fuel r4 (i + ((c :: rest).length - r4.length))
      | none => tocExecLoopGo fuel rest (i + 1)

def tocExecLoop (l : List Char) (i : Nat) : List (String × Nat) :=
  tocExecLoopGo (l.length + 1) l i

/-- `extractTableOfContents`: find the header, delimit the span by the first
terminator, collect item references inside it. -/
def extractTableOfContents (content : List Char) : List (String × Nat) :=
  match findMapSuffix matchTocHeader content with
  | none => []
  | some tocRest =>
    match firstMatchIdxAux tocTerminatorAt tocRest 0 with
    | none => []
    | some k => tocExecLoop (tocRest.take k) 0

/-- `isInToc`: position within 500 characters past the last TOC reference. -/
def isInToc (position : Nat) (tocItems : List (String × Nat)) : Bool :=
  match tocItems with
  | [] => false
  | _ :: _ => decide (position < (tocItems.map Prod.snd).foldl max 0 + 500)

/-- `\s*[A-Z]` with the `i` flag: skip whitespace, require a letter. -/
def afterDotLetter (r : List Char) : Bool :=
  match r.dropWhile isJsWS with
  | c :: _ => isAZci c
  | [] => false

/-- `\d+[A-Z]?[.:]\s*[A-Z]` after `Item\s+`. -/
def nextItemNumPart (r2 : List Char) : Bool :=
  if (r2.takeWhile isAsciiDigit).isEmpty then false
  else
    match r2.drop (r2.takeWhile isAsciiDigit).length with
    | [] => false
    | c1 :: r3 =>
      if isAZci c1 then
        match r3 with
        | c2 :: r4 => if c2 = '.' ∨ c2 = ':' then afterDotLetter r4 else false
        | [] => false
      else if c1 = '.' ∨ c1 = ':' then afterDotLetter r3
      else false

/-- `/Item\s+\d+[A-Z]?[.:]\s*[A-Z]/i`, the next-item heading of
`findItemEnd`. -/
def nextItemMatcher (cs : List Char) : Bool :=
  match matchCI "item".data cs with
  | none => false
  | some (_, r1) =>
    if (r1.takeWhile isJsWS).isEmpty then false
    else nextItemNumPart (r1.drop (r1.takeWhile isJsWS).length)

/-- `findItemEnd`: first next-item heading in `content.substring(startPos +
10)`, or end of content. -/
def findItemEnd (content : List Char) (startPos : Nat) : Nat :=
  match firstMatchIdxAux nextItemMatcher (content.drop (startPos + 10)) 0 with
  | some i => startPos + 10 + i
  | none => content.length

/-- Pattern 1: `Item\s+<number>\.\s*<title>` (escaped literals, ci). -/
def matchP1 (num title : List Char) (cs : List Char) : Option (List Char) :=
  match matchCI "item".data cs with
  | none => none
  | some (_, r1) =>
    if (r1.takeWhile isJsWS).isEmpty then none
    else
      match matchCI num (r1.drop (r1.takeWhile isJsWS).length) with
      | none => none
      | some (_, r2) =>
        match r2 with
        | '.' :: r3 =>
          match matchCI title (r3.drop (r3.takeWhile isJsWS).length) with
          | none => none
          | some (_, r4) => some r4
        | _ => none

/-- Pattern 2: `Item\s+<number>\.\s*(?=[A-Z])` (zero-width lookahead). -/
def matchP2 (num : List Char) (cs : List Char) : Option (List Char) :=
  match matchCI "item".data cs with
  | none => none
  | some (_, r1) =>
    if (r1.takeWhile isJsWS).isEmpty then none
    else
      match matchCI num (r1.drop (r1.takeWhile isJsWS).length) with
      | none => none
      | some (_, r2) =>
        match r2 with
        | '.' :: r3 =>
          match r3.drop (r3.takeWhile isJsWS).length with
          | c :: _ =>
            if isAZci c then some (r3.drop (r3.takeWhile isJsWS).length) else none
          | [] => none
        | _ => none

/-- Pattern 3: `Item\s+<number>(?:\.|:|\s)`. -/
def matchP3 (num : List Char) (cs : List Char) : Option (List Char) :=
  match matchCI "item".data cs with
  | none => none
  | some (_, r1) =>
    if (r1.takeWhile isJsWS).isEmpty then none
    else
      match matchCI num (r1.drop (r1.takeWhile isJsWS).length) with
      | none => none
      | some (_, r2) =>
        match r2 with
        | c :: r3 => if c = '.' ∨ c = ':' ∨ isJsWS c then some r3 else none
        | [] => none

/-- An alias pattern: the escaped alias text, matched literally (ci). -/
def matchAlias (aliasText : List Char) (cs : List Char) : Option (List Char) :=
  (matchCI aliasText cs).map Prod.snd

/-- `content.matchAll(regex)`: all leftmost non-overlapping match indices
(`lastIndex` advances past each match, by one position on an empty match). -/
def matchAllAux (m : List Char → Option (List Char)) :
    Nat → List Char → Nat → List Nat
  | 0, _, _ => []
  | fuel + 1, l, i =>
    match l with
    | [] => []
    | c :: rest =>
      match m (c :: rest) with
      | some r =>
        if r.length < (c :: rest).length then
          i :: matchAllAux m fuel r (i + ((c :: rest).length - r.length))
        else i :: matchAllAux m fuel rest (i + 1)
      | none => matchAllAux m fuel rest (i + 1)

def matchAllIdx (m : List Char → Option (List Char)) (content : List Char) :
    List Nat :=
  matchAllAux m (content.length + 1) content 0

/-- `matches[0]`, overridden by the first later match outside the TOC when a
TOC exists and there are several matches. -/
def pickMatch (matchList : List Nat) (tocItems : List (String × Nat)) : Option Nat :=
  match matchList with
  | [] => none
  | m0 :: restM =>
    if 0 < restM.length ∧ tocItems ≠ [] then
      match restM.find? (fun idx => ! isInToc idx tocItems) with
      | some m => some m
      | none => some m0
    else some m0

/-- Try each pattern in order; the first with any match wins. -/
def tryPatterns (matchers : List (List Char → Option (List Char)))
    (content : List Char) (tocItems : List (String × Nat)) : Option Nat :=
  match matchers with
  | [] => none
  | m :: rest =>
    match matchAllIdx m content with
    | [] => tryPatterns rest content tocItems
    | idx0 :: idxs => pickMatch (idx0 :: idxs) tocItems

structure ExtractedItem where
  itemNumber : String
  title : String
  content : String
  startPosition : Nat
  endPosition : Nat
deriving DecidableEq

/-- The pattern list built for one item definition. -/
def itemPatterns (itemDef : ItemDefinition) :
    List (List Char → Option (List Char)) :=
  [matchP1 itemDef.number.data itemDef.title.data,
   matchP2 itemDef.number.data,
   matchP3 itemDef.number.data]
    ++ itemDef.aliases.map (fun a => matchAlias a.data)

/-- `extractItemsFromContent`: per definition, find the heading, delimit the
span with `findItemEnd`, store under the item number (`Map.set`). -/
def extractItemsFromContent (content : List Char)
    (itemDefinitions : List ItemDefinition)
    (tocItems : List (String × Nat)) : List (String × ExtractedItem) :=
  itemDefinitions.foldl
    (fun items itemDef =>
      match tryPatterns (itemPatterns itemDef) content tocItems with
      | some startPos =>
        jsMapSet items itemDef.number
          { itemNumber := itemDef.number, title := itemDef.title,
            content := jsTrim ⟨(content.take (findItemEnd content startPos)).drop
              startPos⟩,
            startPosition := startPos,
            endPosition := findItemEnd content startPos }
      | none => items) []

/-- Index of the last `'\n'` in a run known to contain one. -/
def lastIdxOfNl (run : List Char) : Nat :=
  run.length - 1 - run.reverse.findIdx (fun c => c = '\n')

/-- `replace(/\n\s*\n\s*\n/g, '\n\n')`: a whitespace run starting at a
newline and containing at least three newlines is collapsed from its first
to its last newline. -/
def collapseNlsGo : Nat → List Char → List Char
  | 0, _ => []
  | fuel + 1, l =>
    match l with
    | [] => []
    | c :: rest =>
      if c = '\n' ∧
          3 ≤ (((c :: rest).takeWhile isJsWS).filter (fun x => x = '\n')).length then
        '\n' :: '\n' ::
          collapseNlsGo fuel ((c :: rest).drop
            (lastIdxOfNl ((c :: rest).takeWhile isJsWS) + 1))
      else c :: collapseNlsGo fuel rest

def collapseNls (l : List Char) : List Char := collapseNlsGo (l.length + 1) l

/-- `postProcessItems` body for one item: collapse blank runs; keep when the
trimmed text exceeds 50 characters or mentions none/not applicable, else
empty string. -/
def processContent (extracted : String) : String :=
  if 50 < (jsTrim ⟨collapseNls extracted.data⟩).length then
    ⟨collapseNls extracted.data⟩
  else if jsIncludes (strToLower ⟨collapseNls extracted.data⟩) "none"
      || jsIncludes (strToLower ⟨collapseNls extracted.data⟩) "not applicable" then
    ⟨collapseNls extracted.data⟩
  else ""

def postProcessItems (items : List (String × ExtractedItem)) :
    List (String × String) :=
  items.map (fun p => (p.1, processContent p.2.content))

/-- `ItemExtractor.extractItems`. -/
def ItemExtractor.extractItems (content formTypeStr : String) :
    Except ThrownError (List (String × String)) :=
  match parseFormType formTypeStr with
  | .error e => .error e
  | .ok parsedFormType =>
    match formItems parsedFormType with
    | none => .error (.invalidFormTypeError formTypeStr)
    | some itemDefinitions =>
      .ok (postProcessItems (extractItemsFromContent
        (ItemExtractor.cleanContent content).data itemDefinitions
        (extractTableOfContents (ItemExtractor.cleanContent content).data)))

/-- `ItemExtractor.extractSpecificItems`: full extraction, then copy only the
requested keys that are present. -/
def ItemExtractor.extractSpecificItems (content formTypeStr : String)
    (itemNumbers : List String) : Except ThrownError (List (String × String)) :=
  match ItemExtractor.extractItems content formTypeStr with
  | .error e => .error e
  | .ok allItems =>
    .ok (itemNumbers.foldl
      (fun result itemNum =>
        match jsMapGet allItems itemNum with
        | some v => jsMapSet result itemNum v
        | none => result) [])

theorem jsMapGet_set_ne {β : Type} (m : List (String × β)) (k n : String) (v : β)
    (h : k ≠ n) : jsMapGet (jsMapSet m n v) k = jsMapGet m k := by
  have hnk : ¬ n = k := fun hh => h hh.symm
  induction m with
  | nil => simp [jsMapSet, jsMapGet, hnk]
  | cons p t ih =>
    obtain ⟨k', v'⟩ := p
    by_cases hk : k' = n
    · subst hk
      simp [jsMapSet, jsMapGet, hnk]
    · simp only [jsMapSet, if_neg hk]
      by_cases hkk : k' = k
      · simp [jsMapGet, hkk]
      · simp [jsMapGet, hkk, ih]

/-- Lookup after the copy loop of `extractSpecificItems`: requested keys
present in the full result take its value, everything else falls through. -/
theorem specFold_lookup (allItems : List (String × String)) :
    ∀ (nums : List String) (acc : List (String × String)) (k : String),
      jsMapGet (nums.foldl (fun result itemNum =>
        match jsMapGet allItems itemNum with
        | some v => jsMapSet result itemNum v
        | none => result) acc) k
      = if k ∈ nums ∧ (jsMapGet allItems k).isSome then jsMapGet allItems k
        else jsMapGet acc k := by
  intro nums
  induction nums with
  | nil =>
    intro acc k
    simp
  | cons n ns ih =>
    intro acc k
    rw [List.foldl_cons, ih]
    by_cases hkn : k = n
    · subst hkn
      match hv : jsMapGet allItems k with
      | some v => simp [hv, jsMapGet_set_self]
      | none => simp [hv]
    · match hv : jsMapGet allItems n with
      | some v =>
        simp only [hv]
        rw [jsMapGet_set_ne acc k n v hkn]
        simp [List.mem_cons, hkn]
      | none =>
        simp only [hv]
        simp [List.mem_cons, hkn]

/-- C7: for every filing content string, form type and requested item-number
list, a successful `extractSpecificItems` returns exactly the requested keys
present in the full `extractItems` result, mapped to the same content — never
a key that was not requested and never a key absent from the full
extraction. -/
theorem extract_specific_items_subset (content formTypeStr : String)
    (itemNumbers : List String) (allItems : List (String × String))
    (h : ItemExtractor.extractItems content formTypeStr = .ok allItems) :
    ∃ result, ItemExtractor.extractSpecificItems content formTypeStr itemNumbers
        = .ok result ∧
      ∀ k v, jsMapGet result k = some v ↔
        (k ∈ itemNumbers ∧ jsMapGet allItems k = some v) := by
  refine ⟨itemNumbers.foldl (fun result itemNum =>
      match jsMapGet allItems itemNum with
      | some v => jsMapSet result itemNum v
      | none => result) [], ?_, ?_⟩
  · unfold ItemExtractor.extractSpecificItems
    rw [h]
  · intro k v
    rw [specFold_lookup]
    constructor
    · intro hk
      by_cases hc : k ∈ itemNumbers ∧ (jsMapGet allItems k).isSome
      · rw [if_pos hc] at hk
        exact ⟨hc.1, hk⟩
      · rw [if_neg hc] at hk
        simp [jsMapGet] at hk
    · intro hkv
      have hsome : (jsMapGet allItems k).isSome := by rw [hkv.2]; rfl
      rw [if_pos ⟨hkv.1, hsome⟩]
      exact hkv.2

/-- Witness for C7 on a concrete 8-K text whose full extraction yields the
single item 9.01: requesting 9.01 and 1.01 returns exactly 9.01. -/
theorem extract_specific_items_subset_witness :
    ∃ result, ItemExtractor.extractSpecificItems
        "Item 9.01. Financial Statements and Exhibits: none." "8-K"
        ["9.01", "1.01"] = .ok result ∧
      ∀ k v, jsMapGet result k = some v ↔
        (k ∈ ["9.01", "1.01"] ∧
          jsMapGet [("9.01",
            "Item 9.01. Financial Statements and Exhibits: none.")] k = some v) :=
  extract_specific_items_subset
    "Item 9.01. Financial Statements and Exhibits: none." "8-K"
    ["9.01", "1.01"]
    [("9.01", "Item 9.01. Financial Statements and Exhibits: none.")]
    (by decide)

theorem jsMapSet_keys_subset {β : Type} :
    ∀ (m : List (String × β)) (k : String) (v : β) (k' : String),
      k' ∈ (jsMapSet m k v).map Prod.fst → k' = k ∨ k' ∈ m.map Prod.fst := by
  intro m k v
  induction m with
  | nil =>
    intro k' h
    simp [jsMapSet] at h
    exact Or.inl h
  | cons p t ih =>
    obtain ⟨ka, va⟩ := p
    intro k' h
    by_cases hk : ka = k
    · subst hk
      simp [jsMapSet] at h
      rcases h with h | h
      · exact Or.inl h
      · exact Or.inr (by simp [h])
    · simp only [jsMapSet, if_neg hk, List.map_cons, List.mem_cons] at h
      rcases h with h | h
      · exact Or.inr (by simp [h])
      · rcases ih k' h with h' | h'
        · exact Or.inl h'
        · exact Or.inr (by simp [h'])

/-- Keys produced by the extraction fold come from the accumulator or from
the item numbers of the processed definitions. -/
theorem extract_fold_keys (content : List Char) (toc : List (String × Nat)) :
    ∀ (defs : List ItemDefinition) (acc : List (String × ExtractedItem))
      (k : String),
      k ∈ (defs.foldl (fun items itemDef =>
        match tryPatterns (itemPatterns itemDef) content toc with
        | some startPos =>
          jsMapSet items itemDef.number
            { itemNumber := itemDef.number, title := itemDef.title,
              content := jsTrim ⟨(content.take
                (findItemEnd content startPos)).drop startPos⟩,
              startPosition := startPos,
              endPosition := findItemEnd content startPos }
        | none => items) acc).map Prod.fst →
      k ∈ acc.map Prod.fst ∨ k ∈ defs.map ItemDefinition.number := by
  intro defs
  induction defs with
  | nil =>
    intro acc k hk
    rw [List.foldl_nil] at hk
    exact Or.inl hk
  | cons d ds ih =>
    intro acc k hk
    rw [List.foldl_cons] at hk
    rcases ih _ k hk with hacc | hds
    · match htry : tryPatterns (itemPatterns d) content toc with
      | some startPos =>
        rw [htry] at hacc
        rcases jsMapSet_keys_subset acc d.number _ k hacc with h | h
        · exact Or.inr (by simp [h])
        · exact Or.inl h
      | none =>
        rw [htry] at hacc
        exact Or.inl hacc
    · exact Or.inr (by simp [hds])

theorem postProcessItems_keys (items : List (String × ExtractedItem)) :
    (postProcessItems items).map Prod.fst = items.map Prod.fst := by
  induction items with
  | nil => rfl
  | cons p t ih =>
    unfold postProcessItems at ih ⊢
    simp only [List.map_cons]
    rw [ih]

/-- C10: every key of a successful `extractItems` result is the item number
of an entry in the form type's static registry; in particular for form 8-K
only the fifteen item numbers 1.01 … 9.01 can ever appear. -/
theorem extract_items_keys_in_registry (content formTypeStr : String)
    (ft : FormType) (defs : List ItemDefinition) (r : List (String × String))
    (hft : parseFormType formTypeStr = .ok ft)
    (hdefs : formItems ft = some defs)
    (hr : ItemExtractor.extractItems content formTypeStr = .ok r) :
    (∀ k ∈ r.map Prod.fst, k ∈ defs.map ItemDefinition.number) ∧
    FORM_8K_ITEMS.map ItemDefinition.number
      = ["1.01", "1.02", "2.01", "2.02", "2.03", "3.01", "3.02", "4.01",
         "4.02", "5.01", "5.02", "5.03", "7.01", "8.01", "9.01"] := by
  constructor
  · intro k hk
    unfold ItemExtractor.extractItems at hr
    rw [hft] at hr
    simp only at hr
    rw [hdefs] at hr
    simp only at hr
    have hreq : postProcessItems (extractItemsFromContent
        (ItemExtractor.cleanContent content).data defs
        (extractTableOfContents (ItemExtractor.cleanContent content).data)) = r := by
      injection hr
    rw [← hreq, postProcessItems_keys] at hk
    unfold extractItemsFromContent at hk
    rcases extract_fold_keys (ItemExtractor.cleanContent content).data
      (extractTableOfContents (ItemExtractor.cleanContent content).data)
      defs [] k hk with h | h
    · simp at h
    · exact h
  · rfl

/-- Witness for C10 on the same concrete 8-K text (extraction yields item
9.01, which is in the 8-K registry). -/
theorem extract_items_keys_in_registry_witness :
    (∀ k ∈ ([("9.01",
        "Item 9.01. Financial Statements and Exhibits: none.")].map Prod.fst),
      k ∈ FORM_8K_ITEMS.map ItemDefinition.number) ∧
    FORM_8K_ITEMS.map ItemDefinition.number
      = ["1.01", "1.02", "2.01", "2.02", "2.03", "3.01", "3.02", "4.01",
         "4.02", "5.01", "5.02", "5.03", "7.01", "8.01", "9.01"] :=
  extract_items_keys_in_registry
    "Item 9.01. Financial Statements and Exhibits: none." "8-K"
    .form8K FORM_8K_ITEMS
    [("9.01", "Item 9.01. Financial Statements and Exhibits: none.")]
    (by decide) (by decide) (by decide)

/-! ## `src/typescript/src/utils/cache.ts` — `Cache.generateKey`

`generateKey(...values)` is `createHash('md5').update(JSON.stringify(values))
.digest('hex')`.  `JSON.stringify` serialises object properties in insertion
order; MD5 is the library primitive, modelled from its specification
(RFC 1321) over byte lists; strings are UTF-8 encoded as `hash.update` does.
Numbers are modelled as integers (the claims do not involve float
formatting). -/

inductive JValue where
  | null
  | bool (b : Bool)
  | num (n : Int)
  | str (s : String)
  | arr (items : List JValue)
  | obj (fields : List (String × JValue))

def hexDigitChar (n : Nat) : Char :=
  if n < 10 then Char.ofNat ('0'.toNat + n) else Char.ofNat ('a'.toNat + n - 10)

/-- `JSON.stringify` string escaping. -/
def jsonEscapeChar (c : Char) : List Char :=
  if c = '"' then ['\\', '"']
  else if c = '\\' then ['\\', '\\']
  else if c.toNat = 8 then ['\\', 'b']
  else if c = '\t' then ['\\', 't']
  else if c = '\n' then ['\\', 'n']
  else if c.toNat = 12 then ['\\', 'f']
  else if c = '\r' then ['\\', 'r']
  else if c.toNat < 32 then
    ['\\', 'u', '0', '0', hexDigitChar (c.toNat / 16), hexDigitChar (c.toNat % 16)]
  else [c]

def jsonQuote (s : String) : String :=
  ⟨'"' :: (s.data.bind jsonEscapeChar) ++ ['"']⟩

mutual

/-- `JSON.stringify`, preserving object property insertion order. -/
def JValue.stringify : JValue → String
  | .null => "null"
  | .bool true => "true"
  | .bool false => "false"
  | .num n => toString n
  | .str s => jsonQuote s
  | .arr items => "[" ++ String.intercalate "," (JValue.stringifyList items) ++ "]"
  | .obj fields =>
    "\x7b" ++ String.intercalate "," (JValue.stringifyFields fields) ++ "\x7d"

def JValue.stringifyList : List JValue → List String
  | [] => []
  | v :: rest => JValue.stringify v :: JValue.stringifyList rest

def JValue.stringifyFields : List (String × JValue) → List String
  | [] => []
  | (k, v) :: rest =>
    (jsonQuote k ++ ":" ++ JValue.stringify v) :: JValue.stringifyFields rest

end

/-- UTF-8 encoding of one code point (what `hash.update(string)` does). -/
def utf8EncodeChar (c : Char) : List Nat :=
  let n := c.toNat
  if n < 128 then [n]
  else if n < 2048 then [192 + n / 64, 128 + n % 64]
  else if n < 65536 then [224 + n / 4096, 128 + (n / 64) % 64, 128 + n % 64]
  else [240 + n / 262144, 128 + (n / 4096) % 64, 128 + (n / 64) % 64,
        128 + n % 64]

def utf8Encode (s : String) : List Nat := s.data.bind utf8EncodeChar

/-- MD5, modelled from RFC 1321 (the library's `createHash('md5')`). -/
def w32 (x : Nat) : Nat := x % 4294967296

def rotl32 (x n : Nat) : Nat := w32 ((x <<< n) ||| (x >>> (32 - n)))

def bnot32 (x : Nat) : Nat := 4294967295 ^^^ x

def md5K : List Nat :=
  [0xd76aa478, 0xe8c7b756, 0x242070db, 0xc1bdceee,
   0xf57c0faf, 0x4787c62a, 0xa8304613, 0xfd469501,
   0x698098d8, 0x8b44f7af, 0xffff5bb1, 0x895cd7be,
   0x6b901122, 0xfd987193, 0xa679438e, 0x49b40821,
   0xf61e2562, 0xc040b340, 0x265e5a51, 0xe9b6c7aa,
   0xd62f105d, 0x02441453, 0xd8a1e681, 0xe7d3fbc8,
   0x21e1cde6, 0xc33707d6, 0xf4d50d87, 0x455a14ed,
   0xa9e3e905, 0xfcefa3f8, 0x676f02d9, 0x8d2a4c8a,
   0xfffa3942, 0x8771f681, 0x6d9d6122, 0xfde5380c,
   0xa4beea44, 0x4bdecfa9, 0xf6bb4b60, 0xbebfbc70,
   0x289b7ec6, 0xeaa127fa, 0xd4ef3085, 0x04881d05,
   0xd9d4d039, 0xe6db99e5, 0x1fa27cf8, 0xc4ac5665,
   0xf4292244, 0x432aff97, 0xab9423a7, 0xfc93a039,
   0x655b59c3, 0x8f0ccc92, 0xffeff47d, 0x85845dd1,
   0x6fa87e4f, 0xfe2ce6e0, 0xa3014314, 0x4e0811a1,
   0xf7537e82, 0xbd3af235, 0x2ad7d2bb, 0xeb86d391]

def md5S : List Nat :=
  [7, 12, 17, 22, 7, 12, 17, 22, 7, 12, 17, 22, 7, 12, 17, 22,
   5, 9, 14, 20, 5, 9, 14, 20, 5, 9, 14, 20, 5, 9, 14, 20,
   4, 11, 16, 23, 4, 11, 16, 23, 4, 11, 16, 23, 4, 11, 16, 23,
   6, 10, 15, 21, 6, 10, 15, 21, 6, 10, 15, 21, 6, 10, 15, 21]

/-- Pad to 56 mod 64 bytes and append the 64-bit little-endian bit length. -/
def md5Pad (msg : List Nat) : List Nat :=
  msg ++ [128] ++ List.replicate ((119 - msg.length % 64) % 64) 0 ++
    (List.range 8).map (fun i => ((8 * msg.length) >>> (8 * i)) % 256)

/-- Little-endian 32-bit words of a 64-byte block. -/
def bytesToWords : List Nat → List Nat
  | b0 :: b1 :: b2 :: b3 :: rest =>
    (b0 + 256 * b1 + 65536 * b2 + 16777216 * b3) :: bytesToWords rest
  | _ => []

def md5F (i b c d : Nat) : Nat :=
  if i < 16 then (b &&& c) ||| (bnot32 b &&& d)
  else if i < 32 then (d &&& b) ||| (bnot32 d &&& c)
  else if i < 48 then b ^^^ c ^^^ d
  else c ^^^ (b ||| bnot32 d)

def md5G (i : Nat) : Nat :=
  if i < 16 then i
  else if i < 32 then (5 * i + 1) % 16
  else if i < 48 then (3 * i + 5) % 16
  else (7 * i) % 16

def md5Round (M : List Nat) (st : Nat × Nat × Nat × Nat) (i : Nat) :
    Nat × Nat × Nat × Nat :=
  (st.2.2.2,
   w32 (st.2.1 + rotl32
     (w32 (md5F i st.2.1 st.2.2.1 st.2.2.2 + st.1 + md5K.getD i 0 +
       M.getD (md5G i) 0))
     (md5S.getD i 0)),
   st.2.1, st.2.2.1)

def md5ProcessBlock (st : Nat × Nat × Nat × Nat) (block : List Nat) :
    Nat × Nat × Nat × Nat :=
  let r := (List.range 64).foldl (md5Round (bytesToWords block)) st
  (w32 (st.1 + r.1), w32 (st.2.1 + r.2.1), w32 (st.2.2.1 + r.2.2.1),
   w32 (st.2.2.2 + r.2.2.2))

def chunks64Go : Nat → List Nat → List (List Nat)
  | 0, _ => []
  | fuel + 1, l =>
    match l with
    | [] => []
    | _ :: _ => l.take 64 :: chunks64Go fuel (l.drop 64)

def chunks64 (l : List Nat) : List (List Nat) := chunks64Go (l.length + 1) l

def md5Digest (msg : List Nat) : Nat × Nat × Nat × Nat :=
  (chunks64 (md5Pad msg)).foldl md5ProcessBlock
    (0x67452301, 0xefcdab89, 0x98badcfe, 0x10325476)

def wordLE (x : Nat) : List Nat :=
  [x % 256, (x >>> 8) % 256, (x >>> 16) % 256, (x >>> 24) % 256]

def md5Bytes (msg : List Nat) : List Nat :=
  wordLE (md5Digest msg).1 ++ wordLE (md5Digest msg).2.1 ++
    wordLE (md5Digest msg).2.2.1 ++ wordLE (md5Digest msg).2.2.2

def md5Hex (msg : List Nat) : String :=
  ⟨(md5Bytes msg).bind (fun b => [hexDigitChar (b / 16), hexDigitChar (b % 16)])⟩

/-- `Cache.generateKey(...values)`:
`createHash('md5').update(JSON.stringify(values)).digest('hex')`. -/
def Cache.generateKey (values : List JValue) : String :=
  md5Hex (utf8Encode (JValue.stringify (JValue.arr values)))

theorem md5Bytes_length (msg : List Nat) : (md5Bytes msg).length = 16 := by
  unfold md5Bytes wordLE
  simp

theorem hexPair_bind_length (l : List Nat) :
    (l.bind (fun b => [hexDigitChar (b / 16), hexDigitChar (b % 16)])).length
      = 2 * l.length := by
  induction l with
  | nil => simp
  | cons b t ih =>
    simp [ih]
    omega

/-- C6 counterexample: two objects with the same key-value pairs in opposite
property order (equal as value tuples) hash to different keys —
`JSON.stringify` serialises properties in insertion order, so `generateKey`
is not independent of it. -/
theorem generateKey_order_sensitive_counterexample :
    [("a", (1 : Int)), ("b", (2 : Int))].Perm [("b", (2 : Int)), ("a", (1 : Int))] ∧
    Cache.generateKey [JValue.obj [("a", JValue.num 1), ("b", JValue.num 2)]]
      ≠ Cache.generateKey [JValue.obj [("b", JValue.num 2), ("a", JValue.num 1)]] := by
  constructor
  · exact List.Perm.swap _ _ _
  · decide

/-- C6 (amended): `Cache.generateKey` is deterministic in the exact argument
list and always produces a fixed-length key (32 hex characters), but it is
sensitive to object property insertion order: objects equal as key-value
maps can produce different keys. -/
theorem generateKey_fixed_length (values : List JValue) :
    (Cache.generateKey values).length = 32 := by
  show ((md5Bytes (utf8Encode (JValue.stringify (JValue.arr values)))).bind
    (fun b => [hexDigitChar (b / 16), hexDigitChar (b % 16)])).length = 32
  rw [hexPair_bind_length, md5Bytes_length]

end SecEdgarToolkit
